import Mathlib

/-!
Verification development for the Amazon Music metadata-scraping client
(`src/amazonmusic.ts`).  The TypeScript source is shallowly embedded:
JavaScript strings become `String`/`List Char`, the hand-rolled regular
expressions of the source are translated into explicit executable matchers
with the same backtracking behaviour, JavaScript values flowing out of
`JSON.parse` become an inductive `Json` type, and the platform primitives
(`fetch`, `JSON.parse`, `decodeURIComponent`, `encodeURIComponent`) are
universally quantified oracle parameters collected in an `Env` record.
-/

namespace AmazonMusic

/-! ## JavaScript string primitives -/

/-- JavaScript whitespace (the `\s` class and what `String.prototype.trim`
removes): space, tab, line feed, vertical tab, form feed, carriage return,
no-break space, the Unicode space separators, line/paragraph separator,
narrow no-break space, mathematical space, ideographic space, BOM. -/
def isJsWS (c : Char) : Bool :=
  c = ' ' || c = '\t' || c = '\n' || c = Char.ofNat 11 || c = Char.ofNat 12 ||
  c = '\r' || c = Char.ofNat 160 || c = Char.ofNat 5760 ||
  (8192 ≤ c.toNat && c.toNat ≤ 8202) || c = Char.ofNat 8232 ||
  c = Char.ofNat 8233 || c = Char.ofNat 8239 || c = Char.ofNat 8287 ||
  c = Char.ofNat 12288 || c = Char.ofNat 65279

/-- JavaScript line terminators (what `.` does not match in a regex). -/
def isLineTerm (c : Char) : Bool :=
  c = '\n' || c = '\r' || c = Char.ofNat 8232 || c = Char.ofNat 8233

/-- `String.prototype.trim` on a character list: drop leading and trailing
JavaScript whitespace. -/
def jsTrimL (l : List Char) : List Char :=
  ((l.dropWhile isJsWS).reverse.dropWhile isJsWS).reverse

/-- `String.prototype.trim`. -/
def jsTrimS (s : String) : String := String.mk (jsTrimL s.data)

/-- Strip a literal pattern case-insensitively from the front of the input
(used for the parts of a regex under the `i` flag), returning the rest. -/
def stripLitCI : List Char → List Char → Option (List Char)
  | [], l => some l
  | _ :: _, [] => none
  | p :: ps, c :: cs => if c.toLower = p.toLower then stripLitCI ps cs else none

/-- Strip a literal pattern (case-sensitively) from the front of the input. -/
def stripLit : List Char → List Char → Option (List Char)
  | [], l => some l
  | _ :: _, [] => none
  | p :: ps, c :: cs => if c = p then stripLit ps cs else none

/-- First occurrence of a (nonempty) pattern: returns the part before the
occurrence and the part after it. -/
def findOcc (pat : List Char) : List Char → Option (List Char × List Char)
  | [] => if pat.isPrefixOf ([] : List Char) then some ([], []) else none
  | c :: t =>
    if pat.isPrefixOf (c :: t) then some ([], (c :: t).drop pat.length)
    else (findOcc pat t).map (fun p => (c :: p.1, p.2))

/-- First case-insensitive occurrence of a pattern, returning the part
before it and the part after it. -/
def findOccCI (pat : List Char) : List Char → Option (List Char × List Char)
  | [] => match stripLitCI pat [] with
          | some _ => some ([], [])
          | none => none
  | c :: t =>
    match stripLitCI pat (c :: t) with
    | some rest => some ([], rest)
    | none => (findOccCI pat t).map (fun p => (c :: p.1, p.2))

/-- `String.prototype.includes` with a nonempty needle. -/
def jsIncludesL (pat l : List Char) : Bool := (findOcc pat l).isSome

/-- `String.prototype.includes` on strings. -/
def jsIncludesS (pat s : String) : Bool := jsIncludesL pat.data s.data

/-- `String.prototype.replace` with a plain-string pattern: replace the
first occurrence only. -/
def replaceFirstL (pat repl l : List Char) : List Char :=
  match findOcc pat l with
  | none => l
  | some (a, b) => a ++ repl ++ b

/-- `String.prototype.split` with a nonempty string separator, fuelled
(the fuel is an upper bound on the number of splits; each found separator
strictly shrinks the remaining input, so `l.length` fuel is enough). -/
def splitChA : Nat → List Char → List Char → List (List Char)
  | 0, _, l => [l]
  | f + 1, sep, l =>
    match findOcc sep l with
    | none => [l]
    | some (a, b) => a :: splitChA f sep b

/-- `String.prototype.split` on strings. -/
def splitJS (sep s : String) : List String :=
  (splitChA s.data.length sep.data s.data).map String.mk

/-- `String.prototype.startsWith`. -/
def jsStartsWith (p s : String) : Bool := p.data.isPrefixOf s.data

/-- `String.prototype.endsWith`. -/
def jsEndsWith (p s : String) : Bool := p.data.reverse.isPrefixOf s.data.reverse

/-- `parseInt` on a string of decimal digits. -/
def natOfDigits (l : List Char) : Nat :=
  l.foldl (fun a c => a * 10 + (c.toNat - 48)) 0

/-! ## JavaScript values produced by `JSON.parse` -/

/-- A JavaScript value as produced by `JSON.parse` (numbers are modelled as
integers; the code never does arithmetic on them). -/
inductive Json where
  | null : Json
  | bool : Bool → Json
  | num : Int → Json
  | str : String → Json
  | arr : List Json → Json
  | obj : List (String × Json) → Json
  deriving Inhabited

/-- JavaScript truthiness of a value. -/
def truthy : Json → Bool
  | .null => false
  | .bool b => b
  | .num n => n ≠ 0
  | .str s => s ≠ ""
  | .arr _ => true
  | .obj _ => true

/-- Property access `j[k]` on a non-null value: a missing property or a
non-object receiver yields `undefined` (modelled as `none`). -/
def jget (j : Json) (k : String) : Option Json :=
  match j with
  | .obj l => l.lookup k
  | _ => none

/-- The JavaScript `x || d` idiom applied to a possibly-undefined value. -/
def jsOr (o : Option Json) (d : Json) : Json :=
  match o with
  | some v => if truthy v then v else d
  | none => d

mutual

/-- JavaScript `String(x)` coercion of a `JSON.parse` result. -/
def jsToString : Json → String
  | .null => "null"
  | .bool b => if b then "true" else "false"
  | .num n => toString n
  | .str s => s
  | .arr l => jsToStringList l
  | .obj _ => "[object Object]"

/-- Array-to-string coercion: elements joined with commas. -/
def jsToStringList : List Json → String
  | [] => ""
  | [j] => jsToString j
  | j :: t => jsToString j ++ "," ++ jsToStringList t

end

/-! ## The URL parser (`parseUrl` and `URL_PATTERN`)

`URL_PATTERN` is
`/https?:\/\/music\.amazon\.[^/]+\/(?<type>albums|tracks|artists|playlists|user-playlists)\/(?<id>[A-Za-z0-9]+)(?:\/[^/?#]+)?(?:[/?].*)?$/i`.
It is anchored at the end only; `String.prototype.match` looks for the
leftmost position at which the rest of the pattern matches through to the
end of the (trimmed) string. -/

/-- `parseUrl` result (`ParsedUrl` in the source; the `type` group's text is
kept verbatim, as the unchecked TypeScript cast does). -/
structure ParsedUrl where
  type : String
  id : String
  deriving Repr, DecidableEq

/-- The five kind segments, in the order the regex alternation tries them. -/
def urlKinds : List String :=
  ["albums", "tracks", "artists", "playlists", "user-playlists"]

/-- Matches `(?:[/?].*)?$` (a dot does not match a line terminator). -/
def endPart : List Char → Bool
  | [] => true
  | c :: t => (c = '/' || c = '?') && t.all (fun d => !(isLineTerm d))

/-- A character the slug class `[^/?#]` accepts. -/
def slugChar (c : Char) : Bool := c ≠ '/' && c ≠ '?' && c ≠ '#'

/-- After at least one slug character: zero or more further slug characters
followed by `(?:[/?].*)?$`. -/
def slugRest : List Char → Bool
  | [] => true
  | c :: t => endPart (c :: t) || (slugChar c && slugRest t)

/-- Matches `(?:\/[^/?#]+)(?:[/?].*)?$` (the slug branch taken). -/
def slugPart : List Char → Bool
  | '/' :: c :: t => slugChar c && slugRest t
  | _ => false

/-- Matches `(?:\/[^/?#]+)?(?:[/?].*)?$`, everything the pattern allows
after the id. -/
def tailOk (l : List Char) : Bool := endPart l || slugPart l

/-- Matches `https?:\/\/` (case-insensitively, greedy on the `s?`). -/
def matchScheme (l : List Char) : Option (List Char) :=
  match stripLitCI "https://".data l with
  | some r => some r
  | none => stripLitCI "http://".data l

/-- The literal host part `music\.amazon\.` of the pattern. -/
def hostLit : List Char := "music.amazon.".data

/-- The kind alternation: try each literal segment in order, returning the
consumed input slice (the capture) and the rest. -/
def matchKind : List String → List Char → Option (List Char × List Char)
  | [], _ => none
  | k :: ks, l =>
    match stripLitCI k.data l with
    | some rest => some (l.take k.data.length, rest)
    | none => matchKind ks l

/-- The pattern part after the matched kind segment: `\/(?<id>[A-Za-z0-9]+)`
followed by the optional slug and tail, `k` being the kind capture. -/
def matchAfterKind (l5 : List Char) (k : List Char) : Option (String × String) :=
  match l5 with
  | '/' :: l6 =>
    let idc := l6.takeWhile Char.isAlphanum
    let l7 := l6.dropWhile Char.isAlphanum
    if idc.isEmpty then none
    else if tailOk l7 then some (String.mk k, String.mk idc) else none
  | _ => none

/-- The pattern part after the matched host: the `/`, the kind
alternation, and the rest. -/
def matchAfterHost (l3 : List Char) : Option (String × String) :=
  match l3 with
  | '/' :: l4 =>
    match matchKind urlKinds l4 with
    | none => none
    | some (k, l5) => matchAfterKind l5 k
  | _ => none

/-- Match the whole `URL_PATTERN` anchored at the start of `l` (and, per
its `$`, at the end), returning the two captures `(type, id)`. -/
def matchFrom (l : List Char) : Option (String × String) :=
  match matchScheme l with
  | none => none
  | some l1 =>
    match stripLitCI hostLit l1 with
    | none => none
    | some l2 =>
      let host := l2.takeWhile (fun c => c ≠ '/')
      if host.isEmpty then none
      else matchAfterHost (l2.dropWhile (fun c => c ≠ '/'))

/-- Leftmost-match search, as `String.prototype.match` performs it. -/
def searchFrom : List Char → Option (String × String)
  | [] => none
  | c :: t =>
    match matchFrom (c :: t) with
    | some r => some r
    | none => searchFrom t

/-- `parseUrl` (source lines 659–674): trim, match against `URL_PATTERN`,
reject empty captures, return the named groups. -/
def parseUrl (url : String) : Option ParsedUrl :=
  match searchFrom (jsTrimL url.data) with
  | none => none
  | some (t, i) => if t = "" || i = "" then none else some ⟨t, i⟩

end AmazonMusic

namespace AmazonMusic

/-! ## The metadata extractor (`parseOpenGraph`, source lines 228–361)

The loosely-typed metadata bag.  All string fields start empty, `duration`
starts at 0, `url` starts as the fetched URL.  `artist` and `album` hold
JavaScript values: the JSON-LD stage can store any value from the parsed
structured data there. -/

structure Meta where
  url : String
  title : String
  description : String
  image : String
  type : String
  site_name : String
  audio : String
  artist : Json
  album : Json
  albumUrl : String
  duration : Nat

/-- The initial bag (source lines 229–241). -/
def initMeta (url : String) : Meta :=
  { url := url, title := "", description := "", image := "", type := "",
    site_name := "", audio := "", artist := Json.str "", album := Json.str "",
    albumUrl := "", duration := 0 }

/-- One match of the meta-tag regex
`<meta\s+property="(og:|music:)([^"]+)"\s+content="([^"]*)"`. -/
structure MetaTag where
  pre : String
  prop : String
  content : String

/-- Try to match the meta-tag regex anchored at the start of the input,
returning the three captures and the input after the match. -/
def matchMeta (l : List Char) : Option (MetaTag × List Char) :=
  match stripLit "<meta".data l with
  | none => none
  | some l1 =>
    let ws := l1.takeWhile isJsWS
    let l2 := l1.dropWhile isJsWS
    if ws.isEmpty then none
    else
      match stripLit "property=\"".data l2 with
      | none => none
      | some l3 =>
        match (match stripLit "og:".data l3 with
               | some r => some (("og:", r) : String × List Char)
               | none => (stripLit "music:".data l3).map (fun r => ("music:", r))) with
        | none => none
        | some (pfx, l4) =>
          let prop := l4.takeWhile (fun c => c ≠ '"')
          let l5 := l4.dropWhile (fun c => c ≠ '"')
          if prop.isEmpty then none
          else
            match l5 with
            | '"' :: l6 =>
              let ws2 := l6.takeWhile isJsWS
              let l7 := l6.dropWhile isJsWS
              if ws2.isEmpty then none
              else
                match stripLit "content=\"".data l7 with
                | none => none
                | some l8 =>
                  let content := l8.takeWhile (fun c => c ≠ '"')
                  let l9 := l8.dropWhile (fun c => c ≠ '"')
                  match l9 with
                  | '"' :: l10 => some (⟨pfx, String.mk prop, String.mk content⟩, l10)
                  | _ => none
            | _ => none

/-- Repeated `exec` of the global meta-tag regex: successive leftmost,
non-overlapping matches.  Fuelled; every step strictly shrinks the input,
so `l.length` fuel is enough. -/
def scanMetaA : Nat → List Char → List MetaTag
  | 0, _ => []
  | _, [] => []
  | fuel + 1, c :: t =>
    match matchMeta (c :: t) with
    | some (tag, rest) => tag :: scanMetaA fuel rest
    | none => scanMetaA fuel t

/-- All meta-tag matches of the markup, in order. -/
def scanMeta (l : List Char) : List MetaTag := scanMetaA l.length l

/-- The switch body of the meta-tag loop (source lines 247–283). -/
def applyTag (m : Meta) (t : MetaTag) : Meta :=
  if t.pre = "og:" then
    if t.prop = "title" then { m with title := t.content }
    else if t.prop = "description" then { m with description := t.content }
    else if t.prop = "image" || t.prop = "image:secure_url" then
      (if m.image = "" then { m with image := t.content } else m)
    else if t.prop = "type" then { m with type := t.content }
    else if t.prop = "site_name" then { m with site_name := t.content }
    else if t.prop = "audio" || t.prop = "audio:url" || t.prop = "audio:secure_url" then
      (if m.audio = "" then { m with audio := t.content } else m)
    else m
  else if t.pre = "music:" then
    (if t.prop = "album" then { m with albumUrl := t.content } else m)
  else m

/-- Stage 1: the meta-tag loop. -/
def stage1 (html : String) (m : Meta) : Meta :=
  (scanMeta html.data).foldl applyTag m

/-- One match of `<title>([^<]*)<\/title>` (case-insensitive) anchored at
the start of the input, returning the capture. -/
def matchTitle (l : List Char) : Option (List Char) :=
  match stripLitCI "<title>".data l with
  | none => none
  | some l1 =>
    let cap := l1.takeWhile (fun c => c ≠ '<')
    let l2 := l1.dropWhile (fun c => c ≠ '<')
    match stripLitCI "</title>".data l2 with
    | some _ => some cap
    | none => none

/-- Leftmost match of the `<title>` regex. -/
def searchTitle : List Char → Option (List Char)
  | [] => none
  | c :: t =>
    match matchTitle (c :: t) with
    | some r => some r
    | none => searchTitle t

/-- Stage 2: `<title>` fallback when no `og:title` was found (source lines
286–291); the matched text has a first `" | Amazon Music"` occurrence
removed and is trimmed. -/
def stage2 (html : String) (m : Meta) : Meta :=
  if m.title = "" then
    match searchTitle html.data with
    | some cap =>
      { m with title := String.mk (jsTrimL (replaceFirstL " | Amazon Music".data [] cap)) }
    | none => m
  else m

/-- The JSON-LD open tag literal (matched case-insensitively). -/
def openLd : List Char := "<script type=\"application/ld+json\">".data

/-- One match of the JSON-LD script regex anchored at the start: the open
tag, then the lazy capture up to the first closing `</script>`. -/
def matchScript (l : List Char) : Option (List Char) :=
  match stripLitCI openLd l with
  | none => none
  | some l1 => (findOccCI "</script>".data l1).map (fun p => p.1)

/-- Leftmost match of the JSON-LD script regex. -/
def searchScript : List Char → Option (List Char)
  | [] => none
  | c :: t =>
    match matchScript (c :: t) with
    | some r => some r
    | none => searchScript t

/-- `jsonLd['@type'] === 'MusicRecording'`. -/
def isMusicRecording (j : Json) : Bool :=
  match jget j "@type" with
  | some (.str s) => s == "MusicRecording"
  | _ => false

/-- One optional group `(?:(\d+)U)?` of the ISO-8601 duration regex at the
head of the input: digits followed by the unit letter, or nothing. -/
def grpPT (u : Char) (l : List Char) : Nat × List Char :=
  let ds := l.takeWhile Char.isDigit
  let rest := l.dropWhile Char.isDigit
  if !ds.isEmpty && rest.head? = some u then (natOfDigits ds, rest.drop 1)
  else (0, l)

/-- The three optional groups of `PT(?:(\d+)H)?(?:(\d+)M)?(?:(\d+)S)?`
after the literal `PT`, combined as seconds. -/
def ptSeconds (l : List Char) : Nat :=
  let p1 := grpPT 'H' l
  let p2 := grpPT 'M' p1.2
  let p3 := grpPT 'S' p2.2
  p1.1 * 3600 + p2.1 * 60 + p3.1

/-- The body of the JSON-LD `try` block once `JSON.parse` succeeded
(source lines 298–315).  Property access on `null` throws, and the
exception is swallowed leaving the bag unchanged. -/
def applyJsonLd (j : Json) (m : Meta) : Meta :=
  match j with
  | .null => m
  | _ =>
    if isMusicRecording j then
      let m1 :=
        match jget j "byArtist" with
        | some b =>
          if truthy b then
            { m with artist := jsOr (jget b "name") (jsOr (jget b "@id") (Json.str "")) }
          else m
        | none => m
      let m2 :=
        match jget j "inAlbum" with
        | some a =>
          if truthy a then { m1 with album := jsOr (jget a "name") (Json.str "") }
          else m1
        | none => m1
      match jget j "duration" with
      | some d =>
        if truthy d then
          match findOcc "PT".data (jsToString d).data with
          | some (_, rest) => { m2 with duration := ptSeconds rest }
          | none => m2
        else m2
      | none => m2
    else m

/-- Stage 3: JSON-LD structured data (source lines 294–319); `jp` is the
`JSON.parse` oracle (`none` models a parse exception). -/
def stage3 (jp : String → Option Json) (html : String) (m : Meta) : Meta :=
  match searchScript html.data with
  | none => m
  | some cap =>
    match jp (String.mk cap) with
    | none => m
    | some j => applyJsonLd j m

/-- The three separators tried by the title-splitting heuristics, in
priority order: en-dash, hyphen, pipe. -/
def seps : List String := [" – ", " - ", " | "]

/-- The separator loop of stage 4 (source lines 329–343): at the first
separator contained in the title, take the last split segment, trimmed,
as the candidate artist; keep it unless it is empty or the brand name;
stop either way. -/
def splitLoop : List String → Meta → Meta
  | [], m => m
  | sep :: rest, m =>
    if jsIncludesS sep m.title then
      let parts := splitJS sep m.title
      if parts.length ≥ 2 then
        let cand := jsTrimS (parts.getLast?.getD "")
        if cand ≠ "" ∧ cand ≠ "Amazon Music" then { m with artist := Json.str cand }
        else m
      else splitLoop rest m
    else splitLoop rest m

/-- Stage 4: artist from the title (source lines 326–344). -/
def stage4 (m : Meta) : Meta :=
  if truthy m.artist = false ∧ m.title ≠ "" then splitLoop seps m else m

/-- Try `(?:from|on)\s+["']?([^"']+)["']?` (case-insensitive) with the
whitespace run length fixed to `k`: optional opening quote first, then the
bare capture (greedy, with the optional quote backed off when the quoted
capture would be empty). -/
def quoteCap (rem : List Char) : Option (List Char) :=
  match rem with
  | c :: t =>
    if c = '"' || c = '\'' then
      let cap := t.takeWhile (fun d => d ≠ '"' && d ≠ '\'')
      if cap.isEmpty then
        let cap2 := rem.takeWhile (fun d => d ≠ '"' && d ≠ '\'')
        if cap2.isEmpty then none else some cap2
      else some cap
    else
      let cap := rem.takeWhile (fun d => d ≠ '"' && d ≠ '\'')
      if cap.isEmpty then none else some cap
  | [] => none

/-- Greedy backtracking over the `\s+` length: try `k` whitespace
characters, then `k-1`, … down to `1`. -/
def tryWs : Nat → List Char → Option (List Char)
  | 0, _ => none
  | k + 1, r =>
    match quoteCap (r.drop (k + 1)) with
    | some cap => some cap
    | none => tryWs k r

/-- Try the stage-5 regex anchored at the start of the input: the keyword
alternation `(?:from|on)` (in that order), then `\s+` (greedy, backtracked),
then the quoted-or-bare capture. -/
def stage5Try (l : List Char) : Option (List Char) :=
  match (match stripLitCI "from".data l with
         | some r => some r
         | none => stripLitCI "on".data l) with
  | none => none
  | some r =>
    let wsn := (r.takeWhile isJsWS).length
    if wsn = 0 then none else tryWs wsn r

/-- Leftmost match of the stage-5 regex over the description. -/
def stage5Scan : List Char → Option (List Char)
  | [] => none
  | c :: t =>
    match stage5Try (c :: t) with
    | some r => some r
    | none => stage5Scan t

/-- Stage 5: album from the description (source lines 348–358). -/
def stage5 (m : Meta) : Meta :=
  if truthy m.album = false ∧ m.description ≠ "" then
    match stage5Scan m.description.data with
    | some cap =>
      let pa := jsTrimS (String.mk cap)
      if pa ≠ "" ∧ pa ≠ "Amazon Music" then { m with album := Json.str pa } else m
    | none => m
  else m

/-- `parseOpenGraph` (source lines 228–361): the five extraction stages in
order over the initial bag. -/
def parseOpenGraph (jp : String → Option Json) (html url : String) : Meta :=
  stage5 (stage4 (stage3 jp html (stage2 html (stage1 html (initMeta url)))))

/-- The stages as a list, for indexing by stage number. -/
def stageList (jp : String → Option Json) (html : String) : List (Meta → Meta) :=
  [stage1 html, stage2 html, stage3 jp html, stage4, stage5]

/-- The metadata bag after the first `k` extraction stages. -/
def afterStage (jp : String → Option Json) (html url : String) (k : Nat) : Meta :=
  ((stageList jp html).take k).foldl (fun m f => f m) (initMeta url)

end AmazonMusic

namespace AmazonMusic

/-! ## Public data shapes -/

/-- `Artist` reference.  The `name` holds a JavaScript value: the JSON-LD
stage can propagate a non-string into it. -/
structure Artist where
  name : Json
  url : Option String

/-- `Album` reference. -/
structure Album where
  name : Json
  url : Option String

/-- `Track` (the `title` and `image` fields are optional in the source
interface and are genuinely absent on the search placeholder records). -/
structure Track where
  id : String
  name : String
  title : Option String
  artist : Artist
  duration : Nat
  url : String
  image : Option String
  album : Album

/-- `AlbumFull`. -/
structure AlbumFull where
  name : String
  url : String
  image : Option String
  artist : Artist
  songs : List Track
  totalSongs : Option Nat

/-- `ArtistFull`. -/
structure ArtistFull where
  name : String
  url : String
  image : Option String
  topSongs : List Track

/-- `Playlist`. -/
structure Playlist where
  name : String
  url : String
  image : Option String
  createdBy : Option String
  songs : List Track
  totalSongs : Option Nat

/-! ## Configuration and construction (source lines 131–161) -/

/-- `AmazonMusicConfig`. -/
structure AmazonMusicConfig where
  apiUrl : String
  searchLimit : Option Int := none
  userAgent : Option String := none
  timeout : Option Int := none

/-- The constructed client's stored state. -/
structure AmazonMusicClient where
  baseUrl : String
  searchLimit : Int
  timeout : Int

/-- The constructor (source lines 145–161).  Throws on an empty or
whitespace-only `apiUrl`; strips one trailing slash; the search limit is
clamped to [1,10] only when the supplied value is truthy (a supplied `0`
falls back to the default 5), and the timeout likewise defaults on `0`. -/
def createClient (c : AmazonMusicConfig) : Except Unit AmazonMusicClient :=
  if c.apiUrl = "" ∨ jsTrimS c.apiUrl = "" then .error ()
  else
    .ok
      { baseUrl :=
          if jsEndsWith "/" c.apiUrl then String.mk c.apiUrl.data.dropLast
          else c.apiUrl
        searchLimit :=
          match c.searchLimit with
          | some n => if n ≠ 0 then max 1 (min n 10) else 5
          | none => 5
        timeout :=
          match c.timeout with
          | some t => if t ≠ 0 then t else 10000
          | none => 10000 }

/-! ## Platform oracles -/

/-- Outcome of a platform `fetch`: a thrown error (network failure,
timeout/abort) or a response with an `ok` flag and a body. -/
inductive FetchRes where
  | thrown : FetchRes
  | resp : Bool → String → FetchRes

/-- The platform primitives the client calls, as oracle parameters:
`fetch`, `JSON.parse` (`none` = exception), `decodeURIComponent`
(`none` = `URIError`), `encodeURIComponent`. -/
structure Env where
  fetchO : String → FetchRes
  jp : String → Option Json
  dec : String → Option String
  enc : String → String

/-! ## The metadata fetcher (`fetchMetadata`, source lines 169–223) -/

/-- URL construction of `fetchMetadata`: pass full URLs through, ensure a
leading slash, strip a duplicated `/api` segment, join with the base. -/
def buildUrl (cl : AmazonMusicClient) (path : String) : String :=
  if jsStartsWith "http" path then path
  else
    let p1 := if jsStartsWith "/" path then path else "/" ++ path
    let p2 :=
      if jsEndsWith "/api" cl.baseUrl ∧ jsStartsWith "/api" p1 then
        String.mk (p1.data.drop 4)
      else p1
    cl.baseUrl ++ p2

/-- `fetchMetadata`: one GET of the built URL; a thrown fetch, a timeout or
a non-2xx status become an error; otherwise the body is parsed by
`parseOpenGraph`. -/
def fetchMetadata (env : Env) (cl : AmazonMusicClient) (path : String) :
    Except Unit Meta :=
  let url := buildUrl cl path
  match env.fetchO url with
  | .thrown => .error ()
  | .resp ok html => if ok then .ok (parseOpenGraph env.jp html url) else .error ()

/-! ## Resource assemblers (source lines 369–523) -/

/-- The separator loop of `getAlbum` (source lines 433–443): at the first
separator contained in the title, and when the split has at least two
parts, the first part (trimmed) is the album name and the last part
(trimmed) the artist name; the loop stops at the first contained separator
either way. -/
def albumSplitLoop : List String → String → String × String → String × String
  | [], _, acc => acc
  | sep :: rest, title, acc =>
    if jsIncludesS sep title then
      let parts := splitJS sep title
      if parts.length ≥ 2 then
        (jsTrimS (parts.head?.getD ""), jsTrimS (parts.getLast?.getD ""))
      else acc
    else albumSplitLoop rest title acc

/-- `getAlbum` (source lines 422–456). -/
def getAlbum (env : Env) (cl : AmazonMusicClient) (id : String) :
    Except Unit (Option AlbumFull) :=
  match fetchMetadata env cl ("/albums/" ++ id) with
  | .error e => .error e
  | .ok md =>
    if md.title = "" then .ok none
    else
      let p := albumSplitLoop seps md.title (md.title, "Unknown Artist")
      .ok (some
        { name := p.1, url := md.url, image := some md.image,
          artist := { name := Json.str p.2, url := some "" },
          songs := [], totalSongs := some 0 })

/-- `getTrack` (source lines 369–414): fetch and extract, bail out on an
empty title, heuristic artist/album names with `Unknown` defaults, then
the fail-open recursive album enrichment via `music:album`, and finally
the search-by-name album link when no album URL was resolved. -/
def getTrack (env : Env) (cl : AmazonMusicClient) (id : String) :
    Except Unit (Option Track) :=
  match fetchMetadata env cl ("/tracks/" ++ id) with
  | .error e => .error e
  | .ok md =>
    if md.title = "" then .ok none
    else
      let artistName0 := if truthy md.artist then md.artist else Json.str "Unknown Artist"
      let albumName0 := if truthy md.album then md.album else Json.str "Unknown Album"
      let enr : Json × Json × String :=
        if md.albumUrl ≠ "" then
          match parseUrl md.albumUrl with
          | none => (artistName0, albumName0, "")
          | some p =>
            if p.id = "" then (artistName0, albumName0, "")
            else
              match getAlbum env cl p.id with
              | .error _ => (artistName0, albumName0, "")
              | .ok none => (artistName0, albumName0, "")
              | .ok (some a) => (a.artist.name, Json.str a.name, a.url)
        else (artistName0, albumName0, "")
      .ok (some
        { id := id, name := md.title, title := some md.title,
          artist := { name := enr.1, url := some "" },
          duration := md.duration, url := md.url, image := some md.image,
          album :=
            { name := enr.2.1,
              url := some (if enr.2.2 ≠ "" then enr.2.2
                           else "https://music.amazon.com/search/" ++
                                env.enc (jsToString enr.2.1)) } })

/-- `getArtist` (source lines 464–477). -/
def getArtist (env : Env) (cl : AmazonMusicClient) (id : String) :
    Except Unit (Option ArtistFull) :=
  match fetchMetadata env cl ("/artists/" ++ id) with
  | .error e => .error e
  | .ok md =>
    if md.title = "" then .ok none
    else .ok (some { name := md.title, url := md.url, image := some md.image, topSongs := [] })

/-- `getPlaylist` (source lines 485–500). -/
def getPlaylist (env : Env) (cl : AmazonMusicClient) (id : String) :
    Except Unit (Option Playlist) :=
  match fetchMetadata env cl ("/playlists/" ++ id) with
  | .error e => .error e
  | .ok md =>
    if md.title = "" then .ok none
    else .ok (some
      { name := md.title, url := md.url, image := some md.image,
        createdBy := some "Amazon Music", songs := [], totalSongs := some 0 })

/-- `getUserPlaylist` (source lines 508–523). -/
def getUserPlaylist (env : Env) (cl : AmazonMusicClient) (id : String) :
    Except Unit (Option Playlist) :=
  match fetchMetadata env cl ("/user-playlists/" ++ id) with
  | .error e => .error e
  | .ok md =>
    if md.title = "" then .ok none
    else .ok (some
      { name := md.title, url := md.url, image := some md.image,
        createdBy := some "User", songs := [], totalSongs := some 0 })

/-! ## The search harvester (`search`, source lines 532–651) -/

/-- One match of the redirect-link regex
`href="https:\/\/r\.search\.yahoo\.com\/[^"]*RU=([^"\/]+)\//g` anchored
after its literal head: the greedy `[^"]*` backtracks, so the rightmost
`RU=` (before any `"`) whose capture run is nonempty and followed by `/`
wins.  Returns the capture and the input after the matched `/`. -/
def scanRU : List Char → Option (List Char × List Char)
  | [] => none
  | '"' :: _ => none
  | c :: t =>
    match scanRU t with
    | some r => some r
    | none =>
      if "RU=".data.isPrefixOf (c :: t) then
        let rest := (c :: t).drop 3
        let cap := rest.takeWhile (fun d => d ≠ '"' && d ≠ '/')
        let rest2 := rest.dropWhile (fun d => d ≠ '"' && d ≠ '/')
        match rest2 with
        | '/' :: after => if cap.isEmpty then none else some (cap, after)
        | _ => none
      else none

/-- The literal head of the redirect-link regex. -/
def linkHead : List Char := "href=\"https://r.search.yahoo.com/".data

/-- One full match of the redirect-link regex anchored at the start. -/
def matchLink (l : List Char) : Option (List Char × List Char) :=
  match stripLit linkHead l with
  | none => none
  | some l1 => scanRU l1

/-- Repeated `exec` of the global redirect-link regex (fuelled like
`scanMeta`). -/
def linkScanA : Nat → List Char → List String
  | 0, _ => []
  | _, [] => []
  | fuel + 1, c :: t =>
    match matchLink (c :: t) with
    | some (cap, rest) => String.mk cap :: linkScanA fuel rest
    | none => linkScanA fuel t

/-- All `RU=` captures of a search result page, in order. -/
def linkScan (html : String) : List String := linkScanA html.data.length html.data

/-- The placeholder pushed in phase 1 when enrichment throws
(source lines 583–590). -/
def placeholder1 (p : ParsedUrl) : Track :=
  { id := p.id, name := "Track " ++ p.id, title := none,
    artist := { name := Json.str "Unknown", url := none },
    duration := 0, url := "https://music.amazon.com/" ++ p.type ++ "/" ++ p.id,
    image := none, album := { name := Json.str "Unknown", url := none } }

/-- The placeholder pushed in phase 2 (source lines 629–636). -/
def placeholder2 (p : ParsedUrl) : Track :=
  { id := p.id, name := "Result " ++ p.id, title := none,
    artist := { name := Json.str "Unknown", url := none },
    duration := 0, url := "https://music.amazon.com/" ++ p.type ++ "/" ++ p.id,
    image := none, album := { name := Json.str "Unknown", url := none } }

/-- Phase-1 link loop (source lines 559–596): stop at `limit` results,
decode each capture (a `URIError` skips it), keep track URLs of the target
domain, deduplicate by id, enrich via `getTrack`, fall back to a
placeholder when enrichment throws, and drop hits whose enrichment
returns `null`. -/
def phase1 (env : Env) (cl : AmazonMusicClient) (limit : Nat) :
    List String → List Track → List String → List Track × List String
  | [], res, ids => (res, ids)
  | cap :: caps, res, ids =>
    if res.length ≥ limit then (res, ids)
    else
      match env.dec cap with
      | none => phase1 env cl limit caps res ids
      | some du =>
        if jsIncludesS "music.amazon.com" du = false then phase1 env cl limit caps res ids
        else
          match parseUrl du with
          | none => phase1 env cl limit caps res ids
          | some p =>
            if p.type = "tracks" ∧ p.id ∉ ids then
              match getTrack env cl p.id with
              | .error _ => phase1 env cl limit caps (res ++ [placeholder1 p]) (p.id :: ids)
              | .ok none => phase1 env cl limit caps res (p.id :: ids)
              | .ok (some t) => phase1 env cl limit caps (res ++ [t]) (p.id :: ids)
            else phase1 env cl limit caps res ids

/-- Phase-2 link loop (source lines 614–641): same scan, placeholder-only
records, sharing the phase-1 deduplication set. -/
def phase2 (env : Env) (limit : Nat) :
    List String → List Track → List String → List Track × List String
  | [], res, ids => (res, ids)
  | cap :: caps, res, ids =>
    if res.length ≥ limit then (res, ids)
    else
      match env.dec cap with
      | none => phase2 env limit caps res ids
      | some du =>
        if jsIncludesS "music.amazon.com" du = false then phase2 env limit caps res ids
        else
          match parseUrl du with
          | none => phase2 env limit caps res ids
          | some p =>
            if p.type = "tracks" ∧ p.id ∉ ids then
              phase2 env limit caps (res ++ [placeholder2 p]) (p.id :: ids)
            else phase2 env limit caps res ids

/-- The phase-1 search URL. -/
def searchUrl1 (env : Env) (query : String) : String :=
  "https://search.yahoo.com/search?p=site:music.amazon.com/tracks+" ++
    env.enc query ++ "&nojs=1"

/-- The phase-2 search URL. -/
def searchUrl2 (env : Env) (query : String) : String :=
  "https://search.yahoo.com/search?p=site:music.amazon.com+" ++
    env.enc query ++ "&nojs=1"

/-- `search` (source lines 532–651): phase 1 against the track-restricted
query; if it produced nothing, phase 2 against the unrestricted query with
placeholder-only records; every upstream failure yields `[]` through the
surrounding `try`/`catch`. -/
def search (env : Env) (cl : AmazonMusicClient) (query : String) (limit : Nat) :
    List Track :=
  match env.fetchO (searchUrl1 env query) with
  | .thrown => []
  | .resp ok html =>
    if ok = false then []
    else
      let r1 := phase1 env cl limit (linkScan html) [] []
      if r1.1.length = 0 then
        match env.fetchO (searchUrl2 env query) with
        | .thrown => []
        | .resp ok2 html2 =>
          if ok2 = false then r1.1
          else (phase2 env limit (linkScan html2) r1.1 r1.2).1
      else r1.1

/-- `loadFromUrl` (source lines 682–702). -/
inductive Loaded where
  | track : Track → Loaded
  | album : AlbumFull → Loaded
  | artist : ArtistFull → Loaded
  | playlist : Playlist → Loaded

/-- `loadFromUrl`: parse, then dispatch on the kind; a parse failure makes
no outbound request. -/
def loadFromUrl (env : Env) (cl : AmazonMusicClient) (url : String) :
    Except Unit (Option Loaded) :=
  match parseUrl url with
  | none => .ok none
  | some p =>
    if p.type = "tracks" then (getTrack env cl p.id).map (·.map .track)
    else if p.type = "albums" then (getAlbum env cl p.id).map (·.map .album)
    else if p.type = "artists" then (getArtist env cl p.id).map (·.map .artist)
    else if p.type = "playlists" then (getPlaylist env cl p.id).map (·.map .playlist)
    else if p.type = "user-playlists" then (getUserPlaylist env cl p.id).map (·.map .playlist)
    else .ok none

end AmazonMusic

namespace AmazonMusic

/-! ## Theorems -/

theorem jsTrimL_as_rdrop (l : List Char) :
    jsTrimL l = List.rdropWhile isJsWS (l.dropWhile isJsWS) := rfl

theorem jsTrimL_idem (l : List Char) : jsTrimL (jsTrimL l) = jsTrimL l := by
  rw [jsTrimL_as_rdrop, jsTrimL_as_rdrop]
  have hda : List.dropWhile isJsWS (List.dropWhile isJsWS l) = List.dropWhile isJsWS l :=
    List.dropWhile_idempotent _ _
  set a := List.dropWhile isJsWS l with ha
  have key : List.dropWhile isJsWS (List.rdropWhile isJsWS a) = List.rdropWhile isJsWS a := by
    rcases hr : List.rdropWhile isJsWS a with _ | ⟨c, t⟩
    · simp
    · obtain ⟨u, hu⟩ := List.rdropWhile_prefix isJsWS a
      rw [hr] at hu
      have hac : a = c :: (t ++ u) := by rw [← hu]; simp
      cases hc : isJsWS c
      · exact List.dropWhile_cons_of_neg (by simp [hc])
      · exfalso
        have hcontra := hda
        rw [hac, List.dropWhile_cons_of_pos hc] at hcontra
        have hlen := congrArg List.length hcontra
        have hle := (List.dropWhile_sublist (l := t ++ u) (p := isJsWS)).length_le
        rw [List.length_cons] at hlen
        omega
  rw [key, List.rdropWhile_idempotent]

/-- C10: parseUrl is invariant under surrounding whitespace: for every
string s, parseUrl s equals parseUrl applied to s with leading and
trailing (JavaScript) whitespace removed, so canonical URLs padded with
whitespace still parse. -/
theorem parseUrl_trim_invariant (s : String) : parseUrl s = parseUrl (jsTrimS s) := by
  show (match searchFrom (jsTrimL s.data) with
        | none => none
        | some (t, i) => if t = "" || i = "" then none else some (⟨t, i⟩ : ParsedUrl)) = _
  rw [parseUrl, jsTrimS]
  show _ = (match searchFrom (jsTrimL (jsTrimL s.data)) with
        | none => none
        | some (t, i) => if t = "" || i = "" then none else some (⟨t, i⟩ : ParsedUrl))
  rw [jsTrimL_idem]

/-- C8 (amended): an empty or whitespace-only apiUrl fails with a
configuration error; otherwise construction succeeds, and the stored
search limit equals the supplied value clamped to [1, 10] for every
nonzero supplied integer, while a supplied 0 — being falsy — is treated
like an absent option and yields the default 5; in every successful case
the stored limit lies in [1, 10]. -/
theorem createClient_spec (c : AmazonMusicConfig) :
    (c.apiUrl = "" ∨ jsTrimS c.apiUrl = "" → createClient c = .error ()) ∧
    (¬(c.apiUrl = "" ∨ jsTrimS c.apiUrl = "") →
      ∃ cl, createClient c = .ok cl ∧
        (∀ n, c.searchLimit = some n → n ≠ 0 → cl.searchLimit = max 1 (min n 10)) ∧
        (c.searchLimit = some 0 → cl.searchLimit = 5) ∧
        (c.searchLimit = none → cl.searchLimit = 5) ∧
        1 ≤ cl.searchLimit ∧ cl.searchLimit ≤ 10) := by
  constructor
  · intro h
    simp only [createClient, if_pos h]
  · intro h
    simp only [createClient, if_neg h]
    refine ⟨_, rfl, ?_, ?_, ?_, ?_⟩
    · intro n hn hn0
      simp only [hn, if_pos hn0]
    · intro hn
      simp only [hn]
      norm_num
    · intro hn
      simp only [hn]
    · rcases hsl : c.searchLimit with _ | n
      · simp only [hsl]
        norm_num
      · simp only [hsl]
        by_cases hn0 : n = 0
        · simp only [hn0]
          norm_num
        · simp only [if_pos hn0]
          constructor
          · exact le_max_left 1 (min n 10)
          · exact max_le (by norm_num) (le_trans (min_le_right n 10) (by norm_num))

/-- C8 counterexample: the claim "the stored search limit equals the
supplied searchResultLimit clamped to [1, 10]" fails at a supplied 0: the
clamp of 0 is 1, but the code treats the falsy 0 as absent and stores the
default 5. -/
theorem createClient_counterexample :
    createClient { apiUrl := "x", searchLimit := some 0 } =
      .ok { baseUrl := "x", searchLimit := 5, timeout := 10000 } ∧
    max 1 (min (0 : Int) 10) = 1 ∧ (5 : Int) ≠ 1 := by
  refine ⟨rfl, by norm_num, by norm_num⟩

theorem createClient_spec_witness :
    ∃ cl, createClient { apiUrl := "http://h", searchLimit := some 22 } = .ok cl ∧
      cl.searchLimit = max 1 (min 22 10) := by
  obtain ⟨cl, hcl, h1, _⟩ :=
    (createClient_spec { apiUrl := "http://h", searchLimit := some 22 }).2 (by decide)
  exact ⟨cl, hcl, h1 22 rfl (by decide)⟩

/-- C6: for every resource kind, when the fetch succeeds (an OK response)
and the extracted metadata has an empty title, the corresponding assembler
returns null (ok none) rather than an error. -/
theorem assemblers_empty_title_null (env : Env) (cl : AmazonMusicClient)
    (id html : String) :
    (env.fetchO (buildUrl cl ("/tracks/" ++ id)) = FetchRes.resp true html →
      (parseOpenGraph env.jp html (buildUrl cl ("/tracks/" ++ id))).title = "" →
      getTrack env cl id = .ok none) ∧
    (env.fetchO (buildUrl cl ("/albums/" ++ id)) = FetchRes.resp true html →
      (parseOpenGraph env.jp html (buildUrl cl ("/albums/" ++ id))).title = "" →
      getAlbum env cl id = .ok none) ∧
    (env.fetchO (buildUrl cl ("/artists/" ++ id)) = FetchRes.resp true html →
      (parseOpenGraph env.jp html (buildUrl cl ("/artists/" ++ id))).title = "" →
      getArtist env cl id = .ok none) ∧
    (env.fetchO (buildUrl cl ("/playlists/" ++ id)) = FetchRes.resp true html →
      (parseOpenGraph env.jp html (buildUrl cl ("/playlists/" ++ id))).title = "" →
      getPlaylist env cl id = .ok none) ∧
    (env.fetchO (buildUrl cl ("/user-playlists/" ++ id)) = FetchRes.resp true html →
      (parseOpenGraph env.jp html (buildUrl cl ("/user-playlists/" ++ id))).title = "" →
      getUserPlaylist env cl id = .ok none) := by
  refine ⟨?_, ?_, ?_, ?_, ?_⟩ <;>
    · intro h1 h2
      simp [getTrack, getAlbum, getArtist, getPlaylist, getUserPlaylist,
        fetchMetadata, h1, h2]

theorem assemblers_empty_title_null_witness :
    getTrack ⟨fun _ => FetchRes.resp true "", fun _ => none, fun _ => none, fun s => s⟩
        ⟨"b", 5, 10000⟩ "i" = .ok none ∧
    getAlbum ⟨fun _ => FetchRes.resp true "", fun _ => none, fun _ => none, fun s => s⟩
        ⟨"b", 5, 10000⟩ "i" = .ok none := by
  have h := assemblers_empty_title_null
    ⟨fun _ => FetchRes.resp true "", fun _ => none, fun _ => none, fun s => s⟩
    ⟨"b", 5, 10000⟩ "i" ""
  exact ⟨h.1 rfl rfl, h.2.1 rfl rfl⟩

end AmazonMusic

namespace AmazonMusic

/-- C5: search never raises; if the upstream search page fetch throws, the
response is non-OK, or the page (and then the fallback page) contains no
matching redirect links, search returns the empty list instead of
propagating an error. -/
theorem search_failure_empty (env : Env) (cl : AmazonMusicClient)
    (q : String) (limit : Nat) :
    (env.fetchO (searchUrl1 env q) = FetchRes.thrown → search env cl q limit = []) ∧
    (∀ html, env.fetchO (searchUrl1 env q) = FetchRes.resp false html →
      search env cl q limit = []) ∧
    (∀ html, env.fetchO (searchUrl1 env q) = FetchRes.resp true html →
      linkScan html = [] →
      (env.fetchO (searchUrl2 env q) = FetchRes.thrown → search env cl q limit = []) ∧
      (∀ html2, env.fetchO (searchUrl2 env q) = FetchRes.resp false html2 →
        search env cl q limit = []) ∧
      (∀ html2, env.fetchO (searchUrl2 env q) = FetchRes.resp true html2 →
        linkScan html2 = [] → search env cl q limit = [])) := by
  refine ⟨?_, ?_, ?_⟩
  · intro h
    simp [search, h]
  · intro html h
    simp [search, h]
  · intro html h1 hscan
    refine ⟨?_, ?_, ?_⟩
    · intro h2
      simp [search, h1, hscan, phase1, h2]
    · intro html2 h2
      simp [search, h1, hscan, phase1, h2]
    · intro html2 h2 hscan2
      simp [search, h1, hscan, phase1, h2, hscan2, phase2]

theorem search_failure_empty_witness :
    search ⟨fun _ => FetchRes.thrown, fun _ => none, fun _ => none, fun s => s⟩
      ⟨"b", 5, 10000⟩ "q" 3 = [] :=
  (search_failure_empty
    ⟨fun _ => FetchRes.thrown, fun _ => none, fun _ => none, fun s => s⟩
    ⟨"b", 5, 10000⟩ "q" 3).1 rfl

theorem getTrack_id (env : Env) (cl : AmazonMusicClient) (id : String)
    (t : Track) (h : getTrack env cl id = .ok (some t)) : t.id = id := by
  unfold getTrack at h
  cases hf : fetchMetadata env cl ("/tracks/" ++ id) with
  | error e => rw [hf] at h; cases h
  | ok md =>
    rw [hf] at h
    by_cases ht : md.title = ""
    · simp [ht] at h
    · simp only [if_neg ht, Except.ok.injEq, Option.some.injEq] at h
      rw [← h]

theorem phase1_inv (env : Env) (cl : AmazonMusicClient) (limit : Nat) :
    ∀ caps res ids, res.length ≤ limit → (∀ t ∈ res, t.id ∈ ids) →
      res.Pairwise (fun a b => a.id ≠ b.id) →
      (phase1 env cl limit caps res ids).1.length ≤ limit ∧
      (∀ t ∈ (phase1 env cl limit caps res ids).1,
        t.id ∈ (phase1 env cl limit caps res ids).2) ∧
      (phase1 env cl limit caps res ids).1.Pairwise (fun a b => a.id ≠ b.id) := by
  intro caps
  induction caps with
  | nil => intro res ids h1 h2 h3; exact ⟨h1, h2, h3⟩
  | cons cap caps ih =>
    intro res ids h1 h2 h3
    rw [phase1]
    by_cases hlim : res.length ≥ limit
    · simp only [if_pos hlim]
      exact ⟨h1, h2, h3⟩
    · simp only [if_neg hlim]
      have hlt : res.length < limit := by omega
      have push : ∀ (p : ParsedUrl) (t : Track), t.id = p.id → p.id ∉ ids →
          (res ++ [t]).length ≤ limit ∧
          (∀ x ∈ res ++ [t], x.id ∈ p.id :: ids) ∧
          (res ++ [t]).Pairwise (fun a b => a.id ≠ b.id) := by
        intro p t htid hpid
        refine ⟨by simp; omega, ?_, ?_⟩
        · intro x hx
          rcases List.mem_append.mp hx with hx | hx
          · exact List.mem_cons_of_mem _ (h2 x hx)
          · simp at hx
            rw [hx, htid]
            exact List.mem_cons_self _ _
        · rw [List.pairwise_append]
          refine ⟨h3, List.pairwise_singleton _ _, ?_⟩
          intro a ha b hb
          simp at hb
          rw [hb, htid]
          intro hcon
          exact hpid (hcon ▸ h2 a ha)
      cases hdec : env.dec cap with
      | none => exact ih res ids h1 h2 h3
      | some du =>
        by_cases hinc : jsIncludesS "music.amazon.com" du = false
        · simp only [if_pos hinc]
          exact ih res ids h1 h2 h3
        · simp only [if_neg hinc]
          cases hp : parseUrl du with
          | none => exact ih res ids h1 h2 h3
          | some p =>
            by_cases hk : p.type = "tracks" ∧ p.id ∉ ids
            · simp only [if_pos hk]
              cases hgt : getTrack env cl p.id with
              | error e =>
                obtain ⟨q1, q2, q3⟩ := push p (placeholder1 p) rfl hk.2
                exact ih _ _ q1 q2 q3
              | ok o =>
                cases o with
                | none =>
                  refine ih res (p.id :: ids) h1 ?_ h3
                  intro t ht
                  exact List.mem_cons_of_mem _ (h2 t ht)
                | some t =>
                  obtain ⟨q1, q2, q3⟩ := push p t (getTrack_id env cl p.id t hgt) hk.2
                  exact ih _ _ q1 q2 q3
            · simp only [if_neg hk]
              exact ih res ids h1 h2 h3

theorem phase2_inv (env : Env) (limit : Nat) :
    ∀ caps res ids, res.length ≤ limit → (∀ t ∈ res, t.id ∈ ids) →
      res.Pairwise (fun a b => a.id ≠ b.id) →
      (phase2 env limit caps res ids).1.length ≤ limit ∧
      (∀ t ∈ (phase2 env limit caps res ids).1,
        t.id ∈ (phase2 env limit caps res ids).2) ∧
      (phase2 env limit caps res ids).1.Pairwise (fun a b => a.id ≠ b.id) := by
  intro caps
  induction caps with
  | nil => intro res ids h1 h2 h3; exact ⟨h1, h2, h3⟩
  | cons cap caps ih =>
    intro res ids h1 h2 h3
    rw [phase2]
    by_cases hlim : res.length ≥ limit
    · simp only [if_pos hlim]
      exact ⟨h1, h2, h3⟩
    · simp only [if_neg hlim]
      have hlt : res.length < limit := by omega
      cases hdec : env.dec cap with
      | none => exact ih res ids h1 h2 h3
      | some du =>
        by_cases hinc : jsIncludesS "music.amazon.com" du = false
        · simp only [if_pos hinc]
          exact ih res ids h1 h2 h3
        · simp only [if_neg hinc]
          cases hp : parseUrl du with
          | none => exact ih res ids h1 h2 h3
          | some p =>
            by_cases hk : p.type = "tracks" ∧ p.id ∉ ids
            · simp only [if_pos hk]
              have htid : (placeholder2 p).id = p.id := rfl
              refine ih _ _ (by simp; omega) ?_ ?_
              · intro x hx
                rcases List.mem_append.mp hx with hx | hx
                · exact List.mem_cons_of_mem _ (h2 x hx)
                · simp at hx
                  rw [hx, htid]
                  exact List.mem_cons_self _ _
              · rw [List.pairwise_append]
                refine ⟨h3, List.pairwise_singleton _ _, ?_⟩
                intro a ha b hb
                simp at hb
                rw [hb, htid]
                intro hcon
                exact hk.2 (hcon ▸ h2 a ha)
            · simp only [if_neg hk]
              exact ih res ids h1 h2 h3

/-- C4: for every query, limit and upstream pages, the list returned by
search has length at most the limit and contains no two tracks with the
same id (deduplication by a per-call set shared across both phases). -/
theorem search_limit_nodup (env : Env) (cl : AmazonMusicClient)
    (q : String) (limit : Nat) :
    (search env cl q limit).length ≤ limit ∧
    (search env cl q limit).Pairwise (fun a b => a.id ≠ b.id) := by
  rw [search]
  cases hf : env.fetchO (searchUrl1 env q) with
  | thrown => simp
  | resp ok html =>
    cases ok with
    | false => simp
    | true =>
      simp only [if_neg (by simp : ¬(true = false))]
      obtain ⟨q1, q2, q3⟩ := phase1_inv env cl limit (linkScan html) [] []
        (by simp) (by simp) (by simp)
      by_cases hz : (phase1 env cl limit (linkScan html) [] []).1.length = 0
      · simp only [if_pos hz]
        cases hf2 : env.fetchO (searchUrl2 env q) with
        | thrown => simp
        | resp ok2 html2 =>
          cases ok2 with
          | false => simpa using ⟨q1, q3⟩
          | true =>
            simp only [if_neg (by simp : ¬(true = false))]
            have hnil : (phase1 env cl limit (linkScan html) [] []).1 = [] :=
              List.length_eq_zero.mp hz
            obtain ⟨r1, r2, r3⟩ := phase2_inv env limit (linkScan html2)
              (phase1 env cl limit (linkScan html) [] []).1
              (phase1 env cl limit (linkScan html) [] []).2
              (by rw [hnil]; simp) (by rw [hnil]; simp) (by rw [hnil]; simp)
            exact ⟨r1, r3⟩
      · simp only [if_neg hz]
        exact ⟨q1, q3⟩

end AmazonMusic

namespace AmazonMusic

theorem findOcc_nil_of_ne (sep : List Char) (hsep : sep ≠ []) :
    findOcc sep [] = none := by
  cases sep with
  | nil => exact absurd rfl hsep
  | cons p ps => simp [findOcc, List.isPrefixOf]

theorem splitChA_length_pos (f : Nat) (sep l : List Char) :
    1 ≤ (splitChA f sep l).length := by
  cases f with
  | zero => simp [splitChA]
  | succ f =>
    rw [splitChA]
    cases h : findOcc sep l with
    | none => simp
    | some p => simp

theorem splitJS_length_two (sep t : String) (hsep : sep.data ≠ [])
    (h : jsIncludesS sep t = true) : 2 ≤ (splitJS sep t).length := by
  rw [jsIncludesS, jsIncludesL] at h
  obtain ⟨⟨a, b⟩, hab⟩ := Option.isSome_iff_exists.mp h
  rw [splitJS]
  cases hd : t.data with
  | nil =>
    rw [hd, findOcc_nil_of_ne sep.data hsep] at hab
    cases hab
  | cons c r =>
    rw [hd] at hab
    have hrw : splitChA (c :: r).length sep.data (c :: r) =
        a :: splitChA r.length sep.data b := by
      rw [List.length_cons, splitChA, hab]
    rw [hrw]
    have := splitChA_length_pos r.length sep.data b
    simp only [List.length_map, List.length_cons]
    omega

theorem splitLoop_artist (m : Meta) (h1 : m.artist = Json.str "") :
    ∀ ss : List String, (∀ s ∈ ss, s.data ≠ []) →
    (splitLoop ss m).artist =
      (match ss.find? (fun sep => jsIncludesS sep m.title) with
       | none => Json.str ""
       | some sep =>
         if jsTrimS ((splitJS sep m.title).getLast?.getD "") = "Amazon Music"
         then Json.str ""
         else Json.str (jsTrimS ((splitJS sep m.title).getLast?.getD ""))) := by
  intro ss hss
  induction ss with
  | nil => simp [splitLoop, h1]
  | cons s ss ih =>
    cases hb : jsIncludesS s m.title with
    | true =>
      have hlen : 2 ≤ (splitJS s m.title).length :=
        splitJS_length_two s m.title (hss s (List.mem_cons_self _ _)) hb
      rw [splitLoop, if_pos hb, if_pos hlen]
      simp only [List.find?_cons, hb]
      set cand := jsTrimS ((splitJS s m.title).getLast?.getD "") with hcand
      by_cases hAM : cand = "Amazon Music"
      · rw [if_pos hAM]
        have : ¬(cand ≠ "" ∧ cand ≠ "Amazon Music") := by
          intro hcon
          exact hcon.2 hAM
        rw [if_neg this]
        exact h1
      · rw [if_neg hAM]
        by_cases hE : cand = ""
        · have : ¬(cand ≠ "" ∧ cand ≠ "Amazon Music") := by
            intro hcon
            exact hcon.1 hE
          rw [if_neg this, h1, hE]
        · rw [if_pos ⟨hE, hAM⟩]
    | false =>
      have hbne : ¬(jsIncludesS s m.title = true) := by simp [hb]
      rw [splitLoop, if_neg hbne]
      simp only [List.find?_cons, hb]
      exact ih (fun x hx => hss x (List.mem_cons_of_mem _ hx))

/-- C3: for every markup whose extraction leaves the artist empty after
the JSON-LD stage and the title non-empty, the title-splitting stage tries
the separators in the fixed priority order en-dash, hyphen, pipe, takes
the last split segment (trimmed) as the candidate artist, rejects a
candidate equal to "Amazon Music", and stops at the first separator
contained in the title without trying lower-priority separators even when
the candidate is rejected. -/
theorem title_split_priority (jp : String → Option Json) (html url : String)
    (h1 : (afterStage jp html url 3).artist = Json.str "")
    (h2 : (afterStage jp html url 3).title ≠ "") :
    (afterStage jp html url 4).artist =
      (match seps.find?
          (fun sep => jsIncludesS sep (afterStage jp html url 3).title) with
       | none => Json.str ""
       | some sep =>
         if jsTrimS ((splitJS sep (afterStage jp html url 3).title).getLast?.getD "")
             = "Amazon Music"
         then Json.str ""
         else Json.str
           (jsTrimS ((splitJS sep (afterStage jp html url 3).title).getLast?.getD ""))) := by
  have h4 : afterStage jp html url 4 = stage4 (afterStage jp html url 3) := rfl
  rw [h4, stage4, if_pos ⟨by rw [h1]; rfl, h2⟩]
  exact splitLoop_artist _ h1 seps (by decide)

theorem title_split_priority_witness :
    (afterStage (fun _ => none)
      "<meta property=\"og:title\" content=\"Whatever It Takes - Imagine Dragons\">"
      "u" 4).artist = Json.str "Imagine Dragons" := by
  have h := title_split_priority (fun _ => none)
    "<meta property=\"og:title\" content=\"Whatever It Takes - Imagine Dragons\">"
    "u" (by rfl) (by decide)
  rw [h]
  rfl

end AmazonMusic

namespace AmazonMusic

theorem search_link_ne_empty (s : String) :
    ("https://music.amazon.com/search/" ++ s) ≠ "" := by
  intro h
  have h2 := congrArg String.data h
  rw [String.data_append] at h2
  cases h2

/-- C7: track assembly's recursive album enrichment fails open: when the
track page fetch succeeds with a non-empty title and the extracted
metadata carries an albumUrl, and resolving it fails (the URL parse yields
nothing, or an empty id, or the nested album fetch throws, or the album
assembler returns null), getTrack still returns a Track built from the
heuristic artist and album names (defaulting to "Unknown Artist" /
"Unknown Album" when falsy), and its album.url is the synthesized
search-by-name link, which is never the empty string. -/
theorem getTrack_fail_open (env : Env) (cl : AmazonMusicClient)
    (id html : String) (md : Meta)
    (hf : env.fetchO (buildUrl cl ("/tracks/" ++ id)) = FetchRes.resp true html)
    (hmd : md = parseOpenGraph env.jp html (buildUrl cl ("/tracks/" ++ id)))
    (ht : md.title ≠ "") (hau : md.albumUrl ≠ "")
    (hfail : parseUrl md.albumUrl = none ∨
      (∃ p, parseUrl md.albumUrl = some p ∧
        (p.id = "" ∨ getAlbum env cl p.id = .error () ∨ getAlbum env cl p.id = .ok none))) :
    getTrack env cl id = .ok (some
      { id := id, name := md.title, title := some md.title,
        artist :=
          { name := if truthy md.artist then md.artist else Json.str "Unknown Artist",
            url := some "" },
        duration := md.duration, url := md.url, image := some md.image,
        album :=
          { name := if truthy md.album then md.album else Json.str "Unknown Album",
            url := some ("https://music.amazon.com/search/" ++
              env.enc (jsToString
                (if truthy md.album then md.album else Json.str "Unknown Album"))) } }) ∧
    ("https://music.amazon.com/search/" ++
      env.enc (jsToString
        (if truthy md.album then md.album else Json.str "Unknown Album"))) ≠ "" := by
  constructor
  · rcases hfail with hp | ⟨p, hp, hrest⟩
    · simp [getTrack, fetchMetadata, hf, ← hmd, ht, hau, hp]
    · rcases hrest with hid | herr | hnone
      · simp [getTrack, fetchMetadata, hf, ← hmd, ht, hau, hp, hid]
      · simp [getTrack, fetchMetadata, hf, ← hmd, ht, hau, hp, herr]
      · simp [getTrack, fetchMetadata, hf, ← hmd, ht, hau, hp, hnone]
  · exact search_link_ne_empty _

end AmazonMusic

namespace AmazonMusic

theorem getTrack_fail_open_witness :
    ∃ t, getTrack
      ⟨fun _ => FetchRes.resp true
          "<meta property=\"og:title\" content=\"T\"><meta property=\"music:album\" content=\"x\">",
        fun _ => none, fun _ => none, fun s => s⟩
      ⟨"b", 5, 10000⟩ "i" = .ok (some t) ∧ t.album.url ≠ some "" := by
  have h := getTrack_fail_open
    ⟨fun _ => FetchRes.resp true
        "<meta property=\"og:title\" content=\"T\"><meta property=\"music:album\" content=\"x\">",
      fun _ => none, fun _ => none, fun s => s⟩
    ⟨"b", 5, 10000⟩ "i"
    "<meta property=\"og:title\" content=\"T\"><meta property=\"music:album\" content=\"x\">"
    _ rfl rfl (by decide) (by decide) (Or.inl rfl)
  exact ⟨_, h.1, fun hcon => h.2 (Option.some.inj hcon)⟩

end AmazonMusic

namespace AmazonMusic

theorem const_chain {α : Type} (g : Nat → α)
    (hstep : ∀ i, g (i + 1) = g i) (k j : Nat) (hkj : k ≤ j) : g j = g k := by
  induction j with
  | zero => cases Nat.le_zero.mp hkj; rfl
  | succ j ih =>
    by_cases hc : k = j + 1
    · rw [hc]
    · have hkj' : k ≤ j := by omega
      rw [hstep j, ih hkj']

theorem mono_chain {α : Type} (g : Nat → α) (d : α)
    (hstep : ∀ i, g i ≠ d → g (i + 1) = g i) (k j : Nat) (hkj : k ≤ j)
    (hne : g k ≠ d) : g j = g k := by
  induction j with
  | zero => cases Nat.le_zero.mp hkj; rfl
  | succ j ih =>
    by_cases hc : k = j + 1
    · rw [hc]
    · have hkj' : k ≤ j := by omega
      have hj := ih hkj'
      rw [hstep j (by rw [hj]; exact hne), hj]

theorem afterStage_stable (jp : String → Option Json) (html url : String) (n : Nat) :
    afterStage jp html url (5 + n) = afterStage jp html url 5 := by
  rw [afterStage, afterStage, stageList]
  rw [List.take_of_length_le (by simp), List.take_of_length_le (by simp)]

theorem applyTag_keeps (m : Meta) (t : MetaTag) :
    (applyTag m t).url = m.url ∧ (applyTag m t).artist = m.artist ∧
    (applyTag m t).album = m.album ∧ (applyTag m t).duration = m.duration := by
  rw [applyTag]
  split_ifs <;> exact ⟨rfl, rfl, rfl, rfl⟩

theorem stage1_keeps (html : String) (m : Meta) :
    (stage1 html m).url = m.url ∧ (stage1 html m).artist = m.artist ∧
    (stage1 html m).album = m.album ∧ (stage1 html m).duration = m.duration := by
  rw [stage1]
  generalize scanMeta html.data = tags
  induction tags generalizing m with
  | nil => exact ⟨rfl, rfl, rfl, rfl⟩
  | cons t ts ih =>
    rw [List.foldl_cons]
    obtain ⟨h1, h2, h3, h4⟩ := ih (applyTag m t)
    obtain ⟨g1, g2, g3, g4⟩ := applyTag_keeps m t
    exact ⟨h1.trans g1, h2.trans g2, h3.trans g3, h4.trans g4⟩

theorem stage2_keeps (html : String) (m : Meta) :
    (stage2 html m).url = m.url ∧ (stage2 html m).description = m.description ∧
    (stage2 html m).image = m.image ∧ (stage2 html m).type = m.type ∧
    (stage2 html m).site_name = m.site_name ∧ (stage2 html m).audio = m.audio ∧
    (stage2 html m).artist = m.artist ∧ (stage2 html m).album = m.album ∧
    (stage2 html m).albumUrl = m.albumUrl ∧ (stage2 html m).duration = m.duration := by
  rw [stage2]
  repeat' split
  all_goals exact ⟨rfl, rfl, rfl, rfl, rfl, rfl, rfl, rfl, rfl, rfl⟩

theorem stage2_title (html : String) (m : Meta) (h : m.title ≠ "") :
    (stage2 html m).title = m.title := by
  rw [stage2, if_neg h]

theorem applyJsonLd_keeps (j : Json) (m : Meta) :
    (applyJsonLd j m).url = m.url ∧ (applyJsonLd j m).title = m.title ∧
    (applyJsonLd j m).description = m.description ∧ (applyJsonLd j m).image = m.image ∧
    (applyJsonLd j m).type = m.type ∧ (applyJsonLd j m).site_name = m.site_name ∧
    (applyJsonLd j m).audio = m.audio ∧ (applyJsonLd j m).albumUrl = m.albumUrl := by
  cases j <;> simp only [applyJsonLd] <;> (repeat' split) <;> intros <;> simp

theorem stage3_keeps (jp : String → Option Json) (html : String) (m : Meta) :
    (stage3 jp html m).url = m.url ∧ (stage3 jp html m).title = m.title ∧
    (stage3 jp html m).description = m.description ∧ (stage3 jp html m).image = m.image ∧
    (stage3 jp html m).type = m.type ∧ (stage3 jp html m).site_name = m.site_name ∧
    (stage3 jp html m).audio = m.audio ∧ (stage3 jp html m).albumUrl = m.albumUrl := by
  rw [stage3]
  repeat' split
  all_goals first
    | exact applyJsonLd_keeps _ _
    | exact ⟨rfl, rfl, rfl, rfl, rfl, rfl, rfl, rfl⟩

theorem splitLoop_keeps : ∀ (ss : List String) (m : Meta),
    (splitLoop ss m).url = m.url ∧ (splitLoop ss m).title = m.title ∧
    (splitLoop ss m).description = m.description ∧ (splitLoop ss m).image = m.image ∧
    (splitLoop ss m).type = m.type ∧ (splitLoop ss m).site_name = m.site_name ∧
    (splitLoop ss m).audio = m.audio ∧ (splitLoop ss m).album = m.album ∧
    (splitLoop ss m).albumUrl = m.albumUrl ∧ (splitLoop ss m).duration = m.duration := by
  intro ss
  induction ss with
  | nil =>
    intro m
    exact ⟨rfl, rfl, rfl, rfl, rfl, rfl, rfl, rfl, rfl, rfl⟩
  | cons s ss ih =>
    intro m
    simp only [splitLoop]
    repeat' split
    all_goals intros
    all_goals first
      | exact ih m
      | exact ⟨rfl, rfl, rfl, rfl, rfl, rfl, rfl, rfl, rfl, rfl⟩

theorem stage4_keeps (m : Meta) :
    (stage4 m).url = m.url ∧ (stage4 m).title = m.title ∧
    (stage4 m).description = m.description ∧ (stage4 m).image = m.image ∧
    (stage4 m).type = m.type ∧ (stage4 m).site_name = m.site_name ∧
    (stage4 m).audio = m.audio ∧ (stage4 m).album = m.album ∧
    (stage4 m).albumUrl = m.albumUrl ∧ (stage4 m).duration = m.duration := by
  rw [stage4]
  split_ifs
  · exact splitLoop_keeps seps m
  · exact ⟨rfl, rfl, rfl, rfl, rfl, rfl, rfl, rfl, rfl, rfl⟩

theorem stage4_artist (m : Meta) (h : truthy m.artist = true) :
    (stage4 m).artist = m.artist := by
  have hcon : ¬(truthy m.artist = false ∧ m.title ≠ "") := by
    intro hc
    rw [h] at hc
    cases hc.1
  rw [stage4, if_neg hcon]

theorem stage5_keeps (m : Meta) :
    (stage5 m).url = m.url ∧ (stage5 m).title = m.title ∧
    (stage5 m).description = m.description ∧ (stage5 m).image = m.image ∧
    (stage5 m).type = m.type ∧ (stage5 m).site_name = m.site_name ∧
    (stage5 m).audio = m.audio ∧ (stage5 m).artist = m.artist ∧
    (stage5 m).albumUrl = m.albumUrl ∧ (stage5 m).duration = m.duration := by
  simp only [stage5]
  repeat' split
  all_goals intros
  all_goals exact ⟨rfl, rfl, rfl, rfl, rfl, rfl, rfl, rfl, rfl, rfl⟩

theorem stage5_album (m : Meta) (h : truthy m.album = true) :
    (stage5 m).album = m.album := by
  have hcon : ¬(truthy m.album = false ∧ m.description ≠ "") := by
    intro hc
    rw [h] at hc
    cases hc.1
  rw [stage5, if_neg hcon]

theorem jsOr_shape1 (o : Option Json) (d : Json) :
    truthy (jsOr o d) = true ∨ jsOr o d = d := by
  rcases o with _ | v
  · right; rfl
  · by_cases h : truthy v = true
    · left; simpa [jsOr, h]
    · right; simp [jsOr, h]

theorem jsOr_tail_shape (o o' : Option Json) :
    truthy (jsOr o (jsOr o' (Json.str ""))) = true ∨
    jsOr o (jsOr o' (Json.str "")) = Json.str "" := by
  rcases jsOr_shape1 o (jsOr o' (Json.str "")) with h | h
  · left; exact h
  · rw [h]
    rcases jsOr_shape1 o' (Json.str "") with h' | h'
    · left; exact h'
    · right; exact h'

theorem applyJsonLd_artist_inv (j : Json) (m : Meta) (h : m.artist = Json.str "") :
    truthy (applyJsonLd j m).artist = true ∨ (applyJsonLd j m).artist = Json.str "" := by
  cases j <;> simp only [applyJsonLd] <;> (repeat' split) <;> intros <;>
    first
      | exact jsOr_tail_shape _ _
      | (right; exact h)

theorem applyJsonLd_album_inv (j : Json) (m : Meta) (h : m.album = Json.str "") :
    truthy (applyJsonLd j m).album = true ∨ (applyJsonLd j m).album = Json.str "" := by
  cases j <;> simp only [applyJsonLd] <;> (repeat' split) <;> intros <;>
    first
      | exact jsOr_shape1 _ _
      | (right; exact h)

theorem stage3_artist_inv (jp : String → Option Json) (html : String) (m : Meta)
    (h : m.artist = Json.str "") :
    truthy (stage3 jp html m).artist = true ∨ (stage3 jp html m).artist = Json.str "" := by
  rw [stage3]
  repeat' split
  all_goals first
    | exact applyJsonLd_artist_inv _ _ h
    | (right; exact h)

theorem stage3_album_inv (jp : String → Option Json) (html : String) (m : Meta)
    (h : m.album = Json.str "") :
    truthy (stage3 jp html m).album = true ∨ (stage3 jp html m).album = Json.str "" := by
  rw [stage3]
  repeat' split
  all_goals first
    | exact applyJsonLd_album_inv _ _ h
    | (right; exact h)

end AmazonMusic

namespace AmazonMusic

theorem afterStage_ge (jp : String → Option Json) (html url : String)
    (n : Nat) (h : 5 ≤ n) : afterStage jp html url n = afterStage jp html url 5 := by
  obtain ⟨m, rfl⟩ := Nat.exists_eq_add_of_le h
  exact afterStage_stable jp html url m

/-- C2: metadata extraction is monotonic per field: for every markup and
every field of the metadata record, once that field holds a non-default
value after extraction stage k, no later stage changes that field,
independently for each field (the url field never changes at all). -/
theorem extraction_monotonic (jp : String → Option Json) (html url : String)
    (k j : Nat) (hkj : k ≤ j) :
    ((afterStage jp html url j).url = (afterStage jp html url k).url) ∧
    ((afterStage jp html url k).title ≠ "" →
      (afterStage jp html url j).title = (afterStage jp html url k).title) ∧
    ((afterStage jp html url k).description ≠ "" →
      (afterStage jp html url j).description = (afterStage jp html url k).description) ∧
    ((afterStage jp html url k).image ≠ "" →
      (afterStage jp html url j).image = (afterStage jp html url k).image) ∧
    ((afterStage jp html url k).type ≠ "" →
      (afterStage jp html url j).type = (afterStage jp html url k).type) ∧
    ((afterStage jp html url k).site_name ≠ "" →
      (afterStage jp html url j).site_name = (afterStage jp html url k).site_name) ∧
    ((afterStage jp html url k).audio ≠ "" →
      (afterStage jp html url j).audio = (afterStage jp html url k).audio) ∧
    ((afterStage jp html url k).artist ≠ Json.str "" →
      (afterStage jp html url j).artist = (afterStage jp html url k).artist) ∧
    ((afterStage jp html url k).album ≠ Json.str "" →
      (afterStage jp html url j).album = (afterStage jp html url k).album) ∧
    ((afterStage jp html url k).albumUrl ≠ "" →
      (afterStage jp html url j).albumUrl = (afterStage jp html url k).albumUrl) ∧
    ((afterStage jp html url k).duration ≠ 0 →
      (afterStage jp html url j).duration = (afterStage jp html url k).duration) := by
  have hstable : ∀ i : Nat, afterStage jp html url (i + 5 + 1) = afterStage jp html url (i + 5) := by
    intro i
    rw [afterStage_ge jp html url (i + 5 + 1) (by omega), afterStage_ge jp html url (i + 5) (by omega)]
  have hart2 : (afterStage jp html url 2).artist = Json.str "" := by
    have h2 := (stage2_keeps html (afterStage jp html url 1)).2.2.2.2.2.2.1
    have h1 := (stage1_keeps html (initMeta url)).2.1
    exact h2.trans h1
  have halb2 : (afterStage jp html url 2).album = Json.str "" := by
    have h2 := (stage2_keeps html (afterStage jp html url 1)).2.2.2.2.2.2.2.1
    have h1 := (stage1_keeps html (initMeta url)).2.2.1
    exact h2.trans h1
  have hdur2 : (afterStage jp html url 2).duration = 0 := by
    have h2 := (stage2_keeps html (afterStage jp html url 1)).2.2.2.2.2.2.2.2.2
    have h1 := (stage1_keeps html (initMeta url)).2.2.2
    exact h2.trans h1
  have hart3 : truthy (afterStage jp html url 3).artist = true ∨ (afterStage jp html url 3).artist = Json.str "" :=
    stage3_artist_inv jp html (afterStage jp html url 2) hart2
  have halb4 : truthy (afterStage jp html url 4).album = true ∨ (afterStage jp html url 4).album = Json.str "" := by
    have h3 := stage3_album_inv jp html (afterStage jp html url 2) halb2
    have h4 := (stage4_keeps (afterStage jp html url 3)).2.2.2.2.2.2.2.1
    rcases h3 with h3 | h3
    · left
      show truthy (stage4 (afterStage jp html url 3)).album = true
      rw [h4]
      exact h3
    · right
      show (stage4 (afterStage jp html url 3)).album = Json.str ""
      rw [h4]
      exact h3
  have hsurl : ∀ i : Nat, (afterStage jp html url (i + 1)).url = (afterStage jp html url i).url := by
    intro i
    obtain _ | _ | _ | _ | _ | i := i
    · exact (stage1_keeps html (initMeta url)).1
    · exact (stage2_keeps html (afterStage jp html url 1)).1
    · exact (stage3_keeps jp html (afterStage jp html url 2)).1
    · exact (stage4_keeps (afterStage jp html url 3)).1
    · exact (stage5_keeps (afterStage jp html url 4)).1
    · rw [hstable i]
  have hstitle : ∀ i : Nat, (afterStage jp html url i).title ≠ "" → (afterStage jp html url (i + 1)).title = (afterStage jp html url i).title := by
    intro i hne
    obtain _ | _ | _ | _ | _ | i := i
    · exact absurd (by rfl) hne
    · exact stage2_title html (afterStage jp html url 1) hne
    · exact (stage3_keeps jp html (afterStage jp html url 2)).2.1
    · exact (stage4_keeps (afterStage jp html url 3)).2.1
    · exact (stage5_keeps (afterStage jp html url 4)).2.1
    · rw [hstable i]
  have hsdescription : ∀ i : Nat, (afterStage jp html url i).description ≠ "" → (afterStage jp html url (i + 1)).description = (afterStage jp html url i).description := by
    intro i hne
    obtain _ | _ | _ | _ | _ | i := i
    · exact absurd (by rfl) hne
    · exact (stage2_keeps html (afterStage jp html url 1)).2.1
    · exact (stage3_keeps jp html (afterStage jp html url 2)).2.2.1
    · exact (stage4_keeps (afterStage jp html url 3)).2.2.1
    · exact (stage5_keeps (afterStage jp html url 4)).2.2.1
    · rw [hstable i]
  have hsimage : ∀ i : Nat, (afterStage jp html url i).image ≠ "" → (afterStage jp html url (i + 1)).image = (afterStage jp html url i).image := by
    intro i hne
    obtain _ | _ | _ | _ | _ | i := i
    · exact absurd (by rfl) hne
    · exact (stage2_keeps html (afterStage jp html url 1)).2.2.1
    · exact (stage3_keeps jp html (afterStage jp html url 2)).2.2.2.1
    · exact (stage4_keeps (afterStage jp html url 3)).2.2.2.1
    · exact (stage5_keeps (afterStage jp html url 4)).2.2.2.1
    · rw [hstable i]
  have hstype : ∀ i : Nat, (afterStage jp html url i).type ≠ "" → (afterStage jp html url (i + 1)).type = (afterStage jp html url i).type := by
    intro i hne
    obtain _ | _ | _ | _ | _ | i := i
    · exact absurd (by rfl) hne
    · exact (stage2_keeps html (afterStage jp html url 1)).2.2.2.1
    · exact (stage3_keeps jp html (afterStage jp html url 2)).2.2.2.2.1
    · exact (stage4_keeps (afterStage jp html url 3)).2.2.2.2.1
    · exact (stage5_keeps (afterStage jp html url 4)).2.2.2.2.1
    · rw [hstable i]
  have hssitename : ∀ i : Nat, (afterStage jp html url i).site_name ≠ "" → (afterStage jp html url (i + 1)).site_name = (afterStage jp html url i).site_name := by
    intro i hne
    obtain _ | _ | _ | _ | _ | i := i
    · exact absurd (by rfl) hne
    · exact (stage2_keeps html (afterStage jp html url 1)).2.2.2.2.1
    · exact (stage3_keeps jp html (afterStage jp html url 2)).2.2.2.2.2.1
    · exact (stage4_keeps (afterStage jp html url 3)).2.2.2.2.2.1
    · exact (stage5_keeps (afterStage jp html url 4)).2.2.2.2.2.1
    · rw [hstable i]
  have hsaudio : ∀ i : Nat, (afterStage jp html url i).audio ≠ "" → (afterStage jp html url (i + 1)).audio = (afterStage jp html url i).audio := by
    intro i hne
    obtain _ | _ | _ | _ | _ | i := i
    · exact absurd (by rfl) hne
    · exact (stage2_keeps html (afterStage jp html url 1)).2.2.2.2.2.1
    · exact (stage3_keeps jp html (afterStage jp html url 2)).2.2.2.2.2.2.1
    · exact (stage4_keeps (afterStage jp html url 3)).2.2.2.2.2.2.1
    · exact (stage5_keeps (afterStage jp html url 4)).2.2.2.2.2.2.1
    · rw [hstable i]
  have hsartist : ∀ i : Nat, (afterStage jp html url i).artist ≠ Json.str "" → (afterStage jp html url (i + 1)).artist = (afterStage jp html url i).artist := by
    intro i hne
    obtain _ | _ | _ | _ | _ | i := i
    · exact (stage1_keeps html (initMeta url)).2.1
    · exact (stage2_keeps html (afterStage jp html url 1)).2.2.2.2.2.2.1
    · exact absurd hart2 hne
    · rcases hart3 with h3 | h3
      · exact stage4_artist (afterStage jp html url 3) h3
      · exact absurd h3 hne
    · exact (stage5_keeps (afterStage jp html url 4)).2.2.2.2.2.2.2.1
    · rw [hstable i]
  have hsalbum : ∀ i : Nat, (afterStage jp html url i).album ≠ Json.str "" → (afterStage jp html url (i + 1)).album = (afterStage jp html url i).album := by
    intro i hne
    obtain _ | _ | _ | _ | _ | i := i
    · exact (stage1_keeps html (initMeta url)).2.2.1
    · exact (stage2_keeps html (afterStage jp html url 1)).2.2.2.2.2.2.2.1
    · exact absurd halb2 hne
    · exact (stage4_keeps (afterStage jp html url 3)).2.2.2.2.2.2.2.1
    · rcases halb4 with h4 | h4
      · exact stage5_album (afterStage jp html url 4) h4
      · exact absurd h4 hne
    · rw [hstable i]
  have hsalbumUrl : ∀ i : Nat, (afterStage jp html url i).albumUrl ≠ "" → (afterStage jp html url (i + 1)).albumUrl = (afterStage jp html url i).albumUrl := by
    intro i hne
    obtain _ | _ | _ | _ | _ | i := i
    · exact absurd (by rfl) hne
    · exact (stage2_keeps html (afterStage jp html url 1)).2.2.2.2.2.2.2.2.1
    · exact (stage3_keeps jp html (afterStage jp html url 2)).2.2.2.2.2.2.2
    · exact (stage4_keeps (afterStage jp html url 3)).2.2.2.2.2.2.2.2.1
    · exact (stage5_keeps (afterStage jp html url 4)).2.2.2.2.2.2.2.2.1
    · rw [hstable i]
  have hsduration : ∀ i : Nat, (afterStage jp html url i).duration ≠ 0 → (afterStage jp html url (i + 1)).duration = (afterStage jp html url i).duration := by
    intro i hne
    obtain _ | _ | _ | _ | _ | i := i
    · exact (stage1_keeps html (initMeta url)).2.2.2
    · exact (stage2_keeps html (afterStage jp html url 1)).2.2.2.2.2.2.2.2.2
    · exact absurd hdur2 hne
    · exact (stage4_keeps (afterStage jp html url 3)).2.2.2.2.2.2.2.2.2
    · exact (stage5_keeps (afterStage jp html url 4)).2.2.2.2.2.2.2.2.2
    · rw [hstable i]
  exact ⟨const_chain (fun i => (afterStage jp html url i).url) hsurl k j hkj,
    fun hne => mono_chain (fun i => (afterStage jp html url i).title) ("") hstitle k j hkj hne,
    fun hne => mono_chain (fun i => (afterStage jp html url i).description) ("") hsdescription k j hkj hne,
    fun hne => mono_chain (fun i => (afterStage jp html url i).image) ("") hsimage k j hkj hne,
    fun hne => mono_chain (fun i => (afterStage jp html url i).type) ("") hstype k j hkj hne,
    fun hne => mono_chain (fun i => (afterStage jp html url i).site_name) ("") hssitename k j hkj hne,
    fun hne => mono_chain (fun i => (afterStage jp html url i).audio) ("") hsaudio k j hkj hne,
    fun hne => mono_chain (fun i => (afterStage jp html url i).artist) (Json.str "") hsartist k j hkj hne,
    fun hne => mono_chain (fun i => (afterStage jp html url i).album) (Json.str "") hsalbum k j hkj hne,
    fun hne => mono_chain (fun i => (afterStage jp html url i).albumUrl) ("") hsalbumUrl k j hkj hne,
    fun hne => mono_chain (fun i => (afterStage jp html url i).duration) (0) hsduration k j hkj hne⟩

theorem extraction_monotonic_witness :
    (afterStage (fun _ => none) "<meta property=\"og:title\" content=\"T\">" "u" 5).title =
    (afterStage (fun _ => none) "<meta property=\"og:title\" content=\"T\">" "u" 1).title :=
  (extraction_monotonic (fun _ => none) "<meta property=\"og:title\" content=\"T\">" "u"
    1 5 (by norm_num)).2.1 (by decide)

end AmazonMusic

namespace AmazonMusic

theorem getTrack_name_title (env : Env) (cl : AmazonMusicClient) (id : String)
    (t : Track) (h : getTrack env cl id = .ok (some t)) : t.title = some t.name := by
  unfold getTrack at h
  cases hf : fetchMetadata env cl ("/tracks/" ++ id) with
  | error e => rw [hf] at h; cases h
  | ok md =>
    rw [hf] at h
    by_cases ht : md.title = ""
    · simp [ht] at h
    · simp only [if_neg ht, Except.ok.injEq, Option.some.injEq] at h
      rw [← h]

theorem phase1_prop (env : Env) (cl : AmazonMusicClient) (limit : Nat)
    (P : Track → Prop)
    (hgt : ∀ id t, getTrack env cl id = .ok (some t) → P t)
    (hph : ∀ p : ParsedUrl, P (placeholder1 p)) :
    ∀ caps res ids, (∀ t ∈ res, P t) →
      ∀ t ∈ (phase1 env cl limit caps res ids).1, P t := by
  intro caps
  induction caps with
  | nil => intro res ids hres; exact hres
  | cons cap caps ih =>
    intro res ids hres
    rw [phase1]
    by_cases hlim : res.length ≥ limit
    · simp only [if_pos hlim]; exact hres
    · simp only [if_neg hlim]
      have happ : ∀ (x : Track), P x → ∀ t ∈ res ++ [x], P t := by
        intro x hx t htm
        rcases List.mem_append.mp htm with hm | hm
        · exact hres t hm
        · simp at hm; rw [hm]; exact hx
      cases hdec : env.dec cap with
      | none => exact ih res ids hres
      | some du =>
        by_cases hinc : jsIncludesS "music.amazon.com" du = false
        · simp only [if_pos hinc]; exact ih res ids hres
        · simp only [if_neg hinc]
          cases hp : parseUrl du with
          | none => exact ih res ids hres
          | some p =>
            by_cases hk : p.type = "tracks" ∧ p.id ∉ ids
            · simp only [if_pos hk]
              cases hgt2 : getTrack env cl p.id with
              | error e => exact ih _ _ (happ _ (hph p))
              | ok o =>
                cases o with
                | none => exact ih res (p.id :: ids) hres
                | some t => exact ih _ _ (happ _ (hgt p.id t hgt2))
            · simp only [if_neg hk]; exact ih res ids hres

theorem phase2_prop (env : Env) (limit : Nat) (P : Track → Prop)
    (hph : ∀ p : ParsedUrl, P (placeholder2 p)) :
    ∀ caps res ids, (∀ t ∈ res, P t) →
      ∀ t ∈ (phase2 env limit caps res ids).1, P t := by
  intro caps
  induction caps with
  | nil => intro res ids hres; exact hres
  | cons cap caps ih =>
    intro res ids hres
    rw [phase2]
    by_cases hlim : res.length ≥ limit
    · simp only [if_pos hlim]; exact hres
    · simp only [if_neg hlim]
      cases hdec : env.dec cap with
      | none => exact ih res ids hres
      | some du =>
        by_cases hinc : jsIncludesS "music.amazon.com" du = false
        · simp only [if_pos hinc]; exact ih res ids hres
        · simp only [if_neg hinc]
          cases hp : parseUrl du with
          | none => exact ih res ids hres
          | some p =>
            by_cases hk : p.type = "tracks" ∧ p.id ∉ ids
            · simp only [if_pos hk]
              refine ih _ _ ?_
              intro t htm
              rcases List.mem_append.mp htm with hm | hm
              · exact hres t hm
              · simp at hm; rw [hm]; exact hph p
            · simp only [if_neg hk]; exact ih res ids hres

theorem search_prop (env : Env) (cl : AmazonMusicClient) (q : String) (limit : Nat)
    (P : Track → Prop)
    (hgt : ∀ id t, getTrack env cl id = .ok (some t) → P t)
    (hph1 : ∀ p : ParsedUrl, P (placeholder1 p))
    (hph2 : ∀ p : ParsedUrl, P (placeholder2 p)) :
    ∀ t ∈ search env cl q limit, P t := by
  rw [search]
  cases hf : env.fetchO (searchUrl1 env q) with
  | thrown => simp
  | resp ok html =>
    cases ok with
    | false => simp
    | true =>
      simp only [if_neg (by simp : ¬(true = false))]
      have h1 := phase1_prop env cl limit P hgt hph1 (linkScan html) [] [] (by simp)
      by_cases hz : (phase1 env cl limit (linkScan html) [] []).1.length = 0
      · simp only [if_pos hz]
        cases hf2 : env.fetchO (searchUrl2 env q) with
        | thrown => simp
        | resp ok2 html2 =>
          cases ok2 with
          | false => simpa using h1
          | true =>
            simp only [if_neg (by simp : ¬(true = false))]
            exact phase2_prop env limit P hph2 (linkScan html2) _ _ h1
      · simp only [if_neg hz]
        exact h1

/-- C9 (amended): tracks produced by the track assembler and by search
enrichment carry the same value in name and title; the search placeholder
records carry no title at all (title is absent), with their name being the
"Track <id>" (phase 1) or "Result <id>" (phase 2) pattern. -/
theorem track_name_title (env : Env) (cl : AmazonMusicClient) :
    (∀ id t, getTrack env cl id = .ok (some t) → t.title = some t.name) ∧
    (∀ q limit t, t ∈ search env cl q limit →
      t.title = some t.name ∨
      (t.title = none ∧ (t.name = "Track " ++ t.id ∨ t.name = "Result " ++ t.id))) := by
  constructor
  · exact getTrack_name_title env cl
  · intro q limit t ht
    refine search_prop env cl q limit
      (fun t => t.title = some t.name ∨
        (t.title = none ∧ (t.name = "Track " ++ t.id ∨ t.name = "Result " ++ t.id)))
      ?_ ?_ ?_ t ht
    · intro id t2 h2
      exact Or.inl (getTrack_name_title env cl id t2 h2)
    · intro p
      exact Or.inr ⟨rfl, Or.inl rfl⟩
    · intro p
      exact Or.inr ⟨rfl, Or.inr rfl⟩

/-- C9 counterexample: a search call whose enrichment fetch throws pushes
a placeholder record whose name is "Track abc" while its title is absent,
so name and title do not carry the same value. -/
theorem track_name_title_counterexample :
    ∃ t, t ∈ search
      ⟨fun u => if u = "https://search.yahoo.com/search?p=site:music.amazon.com/tracks+q&nojs=1"
                then FetchRes.resp true "href=\"https://r.search.yahoo.com/RU=x/\""
                else FetchRes.thrown,
       fun _ => none,
       fun _ => some "https://music.amazon.com/tracks/abc",
       fun s => s⟩
      ⟨"b", 5, 10000⟩ "q" 5 ∧ t.name = "Track abc" ∧ t.title = none := by
  refine ⟨placeholder1 ⟨"tracks", "abc"⟩, ?_, rfl, rfl⟩
  have hs : search
      ⟨fun u => if u = "https://search.yahoo.com/search?p=site:music.amazon.com/tracks+q&nojs=1"
                then FetchRes.resp true "href=\"https://r.search.yahoo.com/RU=x/\""
                else FetchRes.thrown,
       fun _ => none,
       fun _ => some "https://music.amazon.com/tracks/abc",
       fun s => s⟩
      ⟨"b", 5, 10000⟩ "q" 5 = [placeholder1 ⟨"tracks", "abc"⟩] := rfl
  rw [hs]
  exact List.mem_singleton.mpr rfl

theorem track_name_title_witness :
    ∃ t, getTrack
      ⟨fun _ => FetchRes.resp true "<meta property=\"og:title\" content=\"T\">",
        fun _ => none, fun _ => none, fun s => s⟩
      ⟨"b", 5, 10000⟩ "i" = .ok (some t) ∧ t.title = some t.name := by
  obtain ⟨t, ht⟩ : ∃ t, getTrack
      ⟨fun _ => FetchRes.resp true "<meta property=\"og:title\" content=\"T\">",
        fun _ => none, fun _ => none, fun s => s⟩
      ⟨"b", 5, 10000⟩ "i" = .ok (some t) := ⟨_, rfl⟩
  exact ⟨t, ht, (track_name_title _ _).1 "i" t ht⟩

end AmazonMusic

namespace AmazonMusic

theorem mk_data (s : String) : String.mk s.data = s := rfl

theorem alnum_le (c : Char) (h : c.isAlphanum = true) :
    48 ≤ c.toNat ∧ c.toNat ≤ 122 := by
  rw [Char.isAlphanum, Bool.or_eq_true, Char.isAlpha, Bool.or_eq_true,
    Char.isUpper, Char.isLower, Char.isDigit] at h
  rcases h with (h | h) | h
  · rw [Bool.and_eq_true, decide_eq_true_eq, decide_eq_true_eq] at h
    have h1 : 65 ≤ c.toNat := h.1
    have h2 : c.toNat ≤ 90 := h.2
    omega
  · rw [Bool.and_eq_true, decide_eq_true_eq, decide_eq_true_eq] at h
    have h1 : 97 ≤ c.toNat := h.1
    have h2 : c.toNat ≤ 122 := h.2
    omega
  · rw [Bool.and_eq_true, decide_eq_true_eq, decide_eq_true_eq] at h
    have h1 : 48 ≤ c.toNat := h.1
    have h2 : c.toNat ≤ 57 := h.2
    omega

theorem alnum_not_ws (c : Char) (h : c.isAlphanum = true) : isJsWS c = false := by
  obtain ⟨hlo, hhi⟩ := alnum_le c h
  cases hws : isJsWS c
  · rfl
  · exfalso
    rw [isJsWS] at hws
    simp only [Bool.or_eq_true, decide_eq_true_eq, Bool.and_eq_true] at hws
    rcases hws with ((((((((((((((h | h) | h) | h) | h) | h) | h) | h) | h) | h) | h) | h) | h) | h) | h)
    all_goals first
      | (rw [h] at hlo hhi; revert hlo hhi; decide)
      | (obtain ⟨ha, hb⟩ := h
         omega)

theorem takeWhile_all_append (p : Char → Bool) (l r : List Char)
    (hl : l.all p = true) (hr : ∀ c, r.head? = some c → p c = false) :
    (l ++ r).takeWhile p = l ∧ (l ++ r).dropWhile p = r := by
  induction l with
  | nil =>
    cases r with
    | nil => exact ⟨rfl, rfl⟩
    | cons c t =>
      have hc := hr c rfl
      rw [List.nil_append]
      exact ⟨List.takeWhile_cons_of_neg (by simp [hc]),
             List.dropWhile_cons_of_neg (by simp [hc])⟩
  | cons c t ih =>
    rw [List.all_cons, Bool.and_eq_true] at hl
    obtain ⟨ih1, ih2⟩ := ih hl.2
    rw [List.cons_append]
    exact ⟨by rw [List.takeWhile_cons_of_pos hl.1, ih1],
           by rw [List.dropWhile_cons_of_pos hl.1, ih2]⟩

theorem endPart_head (c : Char) (t : List Char) (h : endPart (c :: t) = true) :
    c = '/' ∨ c = '?' := by
  rw [endPart, Bool.and_eq_true, Bool.or_eq_true, decide_eq_true_eq,
    decide_eq_true_eq] at h
  exact h.1

theorem slugPart_head (l : List Char) (h : slugPart l = true) :
    ∃ c t, l = '/' :: c :: t := by
  unfold slugPart at h
  split at h
  · next c t => exact ⟨c, t, rfl⟩
  · cases h

theorem tailOk_head (l : List Char) (h : tailOk l = true) :
    ∀ c, l.head? = some c → c.isAlphanum = false := by
  intro c hc
  rw [tailOk, Bool.or_eq_true] at h
  rcases h with h | h
  · cases l with
    | nil => cases hc
    | cons c0 t =>
      cases hc
      rcases endPart_head c t h with rfl | rfl <;> decide
  · obtain ⟨c1, t1, rfl⟩ := slugPart_head l h
    cases hc
    decide

theorem matchScheme_https (rest : List Char) :
    matchScheme ("https://".data ++ rest) = some rest := rfl

theorem matchScheme_http (rest : List Char) :
    matchScheme ("http://".data ++ rest) = some rest := rfl

theorem stripLitCI_hostLit (rest : List Char) :
    stripLitCI hostLit ("music.amazon.".data ++ rest) = some rest := rfl

theorem stripLitCI_hostLit_list (rest : List Char) :
    stripLitCI hostLit
      (['m', 'u', 's', 'i', 'c', '.', 'a', 'm', 'a', 'z', 'o', 'n', '.'] ++ rest) =
    some rest := rfl

theorem matchAfterKind_canonical (idL tailL k : List Char)
    (hi1 : idL ≠ []) (hi2 : idL.all Char.isAlphanum = true)
    (htail : tailOk tailL = true) :
    matchAfterKind ('/' :: (idL ++ tailL)) k = some (String.mk k, String.mk idL) := by
  obtain ⟨ht, hd⟩ := takeWhile_all_append Char.isAlphanum idL tailL hi2
    (tailOk_head tailL htail)
  simp only [matchAfterKind, ht, hd]
  have hie : idL.isEmpty = false := by
    cases idL with
    | nil => exact absurd rfl hi1
    | cons a b => rfl
  rw [hie]
  simp [htail]

theorem matchKind_canonical (kindS : String) (hk : kindS ∈ urlKinds)
    (rest : List Char) :
    matchKind urlKinds (kindS.data ++ rest) = some (kindS.data, rest) := by
  simp only [urlKinds, List.mem_cons, List.not_mem_nil, or_false] at hk
  rcases hk with rfl | rfl | rfl | rfl | rfl <;> rfl

end AmazonMusic

namespace AmazonMusic

theorem matchFrom_canonical (schemeL : List Char)
    (hs : schemeL = "https://".data ∨ schemeL = "http://".data)
    (host : List Char) (hh1 : host ≠ [])
    (hh2 : host.all (fun c => decide (c ≠ '/')) = true)
    (kindS : String) (hk : kindS ∈ urlKinds)
    (idL : List Char) (hi1 : idL ≠ []) (hi2 : idL.all Char.isAlphanum = true)
    (tailL : List Char) (htail : tailOk tailL = true) :
    matchFrom (schemeL ++ ("music.amazon.".data ++ (host ++
      ('/' :: (kindS.data ++ ('/' :: (idL ++ tailL))))))) =
    some (kindS, String.mk idL) := by
  have hms : matchScheme (schemeL ++ ("music.amazon.".data ++ (host ++
      ('/' :: (kindS.data ++ ('/' :: (idL ++ tailL))))))) =
      some ("music.amazon.".data ++ (host ++
        ('/' :: (kindS.data ++ ('/' :: (idL ++ tailL)))))) := by
    rcases hs with h | h <;> rw [h]
    · exact matchScheme_https _
    · exact matchScheme_http _
  obtain ⟨htk, hdr⟩ := takeWhile_all_append (fun c => decide (c ≠ '/')) host
    ('/' :: (kindS.data ++ ('/' :: (idL ++ tailL)))) hh2 (by intro c hc; cases hc; simp)
  have hhe : host.isEmpty = false := by
    cases host with
    | nil => exact absurd rfl hh1
    | cons a b => rfl
  simp only [matchFrom, hms]
  simp only [stripLitCI_hostLit_list]
  simp only [htk, hdr, hhe, Bool.false_eq_true, if_false]
  simp only [matchAfterHost, matchKind_canonical kindS hk]
  rw [matchAfterKind_canonical idL tailL kindS.data hi1 hi2 htail, mk_data]

end AmazonMusic

namespace AmazonMusic

theorem matchFrom_not_h (c : Char) (l : List Char) (hc : ¬c.toLower = 'h') :
    matchFrom (c :: l) = none := by
  have e1 : stripLitCI "https://".data (c :: l) = none := by
    rw [show ("https://".data : List Char) = 'h' :: "ttps://".data from rfl, stripLitCI]
    exact if_neg (fun h => hc h)
  have e2 : stripLitCI "http://".data (c :: l) = none := by
    rw [show ("http://".data : List Char) = 'h' :: "ttp://".data from rfl, stripLitCI]
    exact if_neg (fun h => hc h)
  have hms : matchScheme (c :: l) = none := by
    rw [matchScheme, e1, e2]
  simp only [matchFrom, hms]

theorem searchFrom_skip (pre l : List Char)
    (hpre : pre.all (fun c => decide (¬c.toLower = 'h')) = true) :
    searchFrom (pre ++ l) = searchFrom l := by
  induction pre with
  | nil => rfl
  | cons c t ih =>
    rw [List.all_cons, Bool.and_eq_true, decide_eq_true_eq] at hpre
    rw [List.cons_append, searchFrom, matchFrom_not_h c (t ++ l) hpre.1]
    exact ih hpre.2

theorem jsTrimL_eq_self (l : List Char)
    (h1 : ∀ c, l.head? = some c → isJsWS c = false)
    (h2 : ∀ c, l.getLast? = some c → isJsWS c = false) : jsTrimL l = l := by
  rw [jsTrimL_as_rdrop]
  have hd : l.dropWhile isJsWS = l := by
    cases l with
    | nil => rfl
    | cons c t => exact List.dropWhile_cons_of_neg (by simp [h1 c rfl])
  rw [hd]
  rw [List.rdropWhile_eq_self_iff]
  intro hl
  have := h2 (l.getLast hl) (List.getLast?_eq_getLast l hl ▸ rfl)
  simp [this]

end AmazonMusic

namespace AmazonMusic

theorem getLast?_mem_list (l : List Char) (c : Char) (h : l.getLast? = some c) :
    c ∈ l := by
  obtain ⟨hne, heq⟩ := List.mem_getLast?_eq_getLast (show c ∈ l.getLast? from h)
  rw [heq]
  exact List.getLast_mem hne

theorem head?_append_ne (a b : List Char) (h : a ≠ []) :
    (a ++ b).head? = a.head? := by
  cases a with
  | nil => exact absurd rfl h
  | cons c t => rfl

theorem searchFrom_canonical (pre schemeL : List Char)
    (hpre : pre.all (fun c => decide (¬c.toLower = 'h')) = true)
    (hs : schemeL = "https://".data ∨ schemeL = "http://".data)
    (host : List Char) (hh1 : host ≠ [])
    (hh2 : host.all (fun c => decide (c ≠ '/')) = true)
    (kindS : String) (hk : kindS ∈ urlKinds)
    (idL : List Char) (hi1 : idL ≠ []) (hi2 : idL.all Char.isAlphanum = true)
    (tailL : List Char) (htail : tailOk tailL = true) :
    searchFrom (pre ++ (schemeL ++ ("music.amazon.".data ++ (host ++
      ('/' :: (kindS.data ++ ('/' :: (idL ++ tailL)))))))) =
    some (kindS, String.mk idL) := by
  rw [searchFrom_skip pre _ hpre]
  have hmf := matchFrom_canonical schemeL hs host hh1 hh2 kindS hk idL hi1 hi2 tailL htail
  rcases hs with rfl | rfl
  · rw [show ("https://".data : List Char) = 'h' :: "ttps://".data from rfl] at hmf ⊢
    rw [List.cons_append, searchFrom]
    have hmf2 : matchFrom ('h' :: ("ttps://".data ++ ("music.amazon.".data ++ (host ++
        ('/' :: (kindS.data ++ ('/' :: (idL ++ tailL)))))))) =
        some (kindS, String.mk idL) := by
      rw [← List.cons_append]
      exact hmf
    rw [hmf2]
  · rw [show ("http://".data : List Char) = 'h' :: "ttp://".data from rfl] at hmf ⊢
    rw [List.cons_append, searchFrom]
    have hmf2 : matchFrom ('h' :: ("ttp://".data ++ ("music.amazon.".data ++ (host ++
        ('/' :: (kindS.data ++ ('/' :: (idL ++ tailL)))))))) =
        some (kindS, String.mk idL) := by
      rw [← List.cons_append]
      exact hmf
    rw [hmf2]

end AmazonMusic

namespace AmazonMusic

theorem app_ne (a b : List Char) (h : a ≠ []) : a ++ b ≠ [] := by
  cases a with
  | nil => exact absurd rfl h
  | cons c t => simp

theorem parseUrl_canonical (pre scheme host kindS idS tailS : String)
    (hpre : pre.data.all (fun c => decide (¬c.toLower = 'h') && !isJsWS c) = true)
    (hscheme : scheme = "https" ∨ scheme = "http")
    (hh1 : host.data ≠ []) (hh2 : host.data.all (fun c => decide (c ≠ '/')) = true)
    (hk : kindS ∈ urlKinds)
    (hi1 : idS.data ≠ []) (hi2 : idS.data.all Char.isAlphanum = true)
    (ht1 : tailOk tailS.data = true)
    (ht2 : ∀ c, tailS.data.getLast? = some c → isJsWS c = false) :
    parseUrl (pre ++ scheme ++ "://music.amazon." ++ host ++ "/" ++ kindS ++ "/" ++
      idS ++ tailS) = some ⟨kindS, idS⟩ := by
  have hpre1 : pre.data.all (fun c => decide (¬c.toLower = 'h')) = true := by
    rw [List.all_eq_true] at hpre ⊢
    intro c hc
    have h := hpre c hc
    rw [Bool.and_eq_true] at h
    exact h.1
  have hsch_ne : scheme.data ≠ [] := by
    rcases hscheme with rfl | rfl <;> simp
  have hsch_head : scheme.data.head? = some 'h' := by
    rcases hscheme with rfl | rfl <;> rfl
  have hps : pre.data ++ scheme.data ≠ [] := by
    cases hp : pre.data with
    | nil => rw [List.nil_append]; exact hsch_ne
    | cons d t => simp
  have h3 := app_ne _ "://music.amazon.".data hps
  have h4 := app_ne _ host.data h3
  have h5 := app_ne _ "/".data h4
  have h6 := app_ne _ kindS.data h5
  have h7 := app_ne _ "/".data h6
  have h8 := app_ne _ idS.data h7
  have hhead : ∀ c, (pre ++ scheme ++ "://music.amazon." ++ host ++ "/" ++ kindS ++
      "/" ++ idS ++ tailS).data.head? = some c → isJsWS c = false := by
    intro c hc
    simp only [String.data_append] at hc
    rw [head?_append_ne _ _ h8, head?_append_ne _ _ h7, head?_append_ne _ _ h6,
      head?_append_ne _ _ h5, head?_append_ne _ _ h4, head?_append_ne _ _ h3,
      head?_append_ne _ _ hps] at hc
    cases hp : pre.data with
    | nil =>
      rw [hp, List.nil_append, hsch_head] at hc
      cases hc
      decide
    | cons d t =>
      rw [hp, head?_append_ne _ _ (by simp)] at hc
      cases hc
      rw [hp, List.all_cons, Bool.and_eq_true, Bool.and_eq_true] at hpre
      have := hpre.1.2
      simpa using this
  have hlast : ∀ c, (pre ++ scheme ++ "://music.amazon." ++ host ++ "/" ++ kindS ++
      "/" ++ idS ++ tailS).data.getLast? = some c → isJsWS c = false := by
    intro c hc
    simp only [String.data_append] at hc
    cases htd : tailS.data with
    | nil =>
      rw [htd, List.append_nil, List.getLast?_append_of_ne_nil _ hi1] at hc
      have hmem := getLast?_mem_list _ _ hc
      have halc : c.isAlphanum = true := by
        rw [List.all_eq_true] at hi2
        exact hi2 c hmem
      exact alnum_not_ws c halc
    | cons d t =>
      rw [List.getLast?_append_of_ne_nil _ (by rw [htd]; simp)] at hc
      exact ht2 c hc
  have hk2 := hk
  simp only [urlKinds, List.mem_cons, List.not_mem_nil, or_false] at hk2
  have hkne : ¬(kindS = "") := by
    rcases hk2 with rfl | rfl | rfl | rfl | rfl <;> decide
  have hine : ¬(idS = "") := by
    intro hcon
    rw [hcon] at hi1
    exact hi1 rfl
  rw [parseUrl, jsTrimL_eq_self _ hhead hlast]
  rcases hscheme with rfl | rfl
  · have hsc := searchFrom_canonical pre.data "https://".data hpre1 (Or.inl rfl)
      host.data hh1 hh2 kindS hk idS.data hi1 hi2 tailS.data ht1
    simp only [String.data_append, List.append_assoc, List.cons_append,
      List.singleton_append, List.nil_append] at hsc ⊢
    rw [hsc, mk_data]
    simp [hkne, hine]
  · have hsc := searchFrom_canonical pre.data "http://".data hpre1 (Or.inr rfl)
      host.data hh1 hh2 kindS hk idS.data hi1 hi2 tailS.data ht1
    simp only [String.data_append, List.append_assoc, List.cons_append,
      List.singleton_append, List.nil_append] at hsc ⊢
    rw [hsc, mk_data]
    simp [hkne, hine]

end AmazonMusic

namespace AmazonMusic

/-- Does the input begin with a case-insensitive match of the pattern? -/
def startsWithCI (ps l : List Char) : Bool := (stripLitCI ps l).isSome

/-- Does the input contain a case-insensitive occurrence of the pattern? -/
def hasSubstrCI (ps : List Char) : List Char → Bool
  | [] => startsWithCI ps []
  | c :: t => startsWithCI ps (c :: t) || hasSubstrCI ps t

theorem stripLitCI_sfx : ∀ (ps l r : List Char), stripLitCI ps l = some r → r <:+ l
  | [], l, r, h => by
    rw [stripLitCI] at h
    cases h
    exact List.suffix_rfl
  | p :: ps, [], r, h => by cases h
  | p :: ps, c :: cs, r, h => by
    rw [stripLitCI] at h
    by_cases hc : c.toLower = p.toLower
    · rw [if_pos hc] at h
      exact (stripLitCI_sfx ps cs r h).trans (List.suffix_cons c cs)
    · rw [if_neg hc] at h
      cases h

theorem stripLitCI_ext : ∀ (ps l r e : List Char),
    stripLitCI ps l = some r → stripLitCI ps (l ++ e) = some (r ++ e)
  | [], l, r, e, h => by
    rw [stripLitCI] at h ⊢
    cases h
    rfl
  | p :: ps, [], r, e, h => by cases h
  | p :: ps, c :: cs, r, e, h => by
    rw [stripLitCI] at h
    rw [List.cons_append, stripLitCI]
    by_cases hc : c.toLower = p.toLower
    · rw [if_pos hc] at h ⊢
      exact stripLitCI_ext ps cs r e h
    · rw [if_neg hc] at h
      cases h

theorem startsWithCI_ext (ps l e : List Char) (h : startsWithCI ps l = true) :
    startsWithCI ps (l ++ e) = true := by
  rw [startsWithCI] at h ⊢
  obtain ⟨r, hr⟩ := Option.isSome_iff_exists.mp h
  rw [stripLitCI_ext ps l r e hr]
  rfl

theorem hasSubstr_of_sfx (ps : List Char) : ∀ (l l1 : List Char),
    l1 <:+ l → startsWithCI ps l1 = true → hasSubstrCI ps l = true
  | [], l1, hsf, hst => by
    rw [List.suffix_nil] at hsf
    rw [hsf] at hst
    exact hst
  | c :: t, l1, hsf, hst => by
    rw [hasSubstrCI, Bool.or_eq_true]
    rcases List.suffix_cons_iff.mp hsf with h | h
    · left
      rw [← h]
      exact hst
    · right
      exact hasSubstr_of_sfx ps t l1 h hst

theorem hasSubstr_exists (ps : List Char) : ∀ (l : List Char),
    hasSubstrCI ps l = true → ∃ s, s <:+ l ∧ startsWithCI ps s = true
  | [], h => ⟨[], List.suffix_rfl, h⟩
  | c :: t, h => by
    rw [hasSubstrCI, Bool.or_eq_true] at h
    rcases h with h | h
    · exact ⟨c :: t, List.suffix_rfl, h⟩
    · obtain ⟨s, hs1, hs2⟩ := hasSubstr_exists ps t h
      exact ⟨s, hs1.trans (List.suffix_cons c t), hs2⟩

theorem hasSubstr_mono_within (ps l1 l2 : List Char) (hinf : l1 <:+: l2)
    (h : hasSubstrCI ps l1 = true) : hasSubstrCI ps l2 = true := by
  obtain ⟨a, b, hab⟩ := hinf
  obtain ⟨s, hs1, hs2⟩ := hasSubstr_exists ps l1 h
  obtain ⟨w, hw⟩ := hs1
  have hsw : s ++ b <:+ l2 := by
    rw [← hab, ← hw]
    exact ⟨a ++ w, by simp⟩
  exact hasSubstr_of_sfx ps l2 (s ++ b) hsw (startsWithCI_ext ps s b hs2)

theorem matchFrom_substr (l : List Char) (r : String × String)
    (h : matchFrom l = some r) : hasSubstrCI hostLit l = true := by
  cases hms : matchScheme l with
  | none => rw [matchFrom, hms] at h; cases h
  | some l1 =>
    cases hst : stripLitCI hostLit l1 with
    | none =>
      simp only [matchFrom, hms, hst] at h
      cases h
    | some l2 =>
      have hsw : startsWithCI hostLit l1 = true := by
        rw [startsWithCI, hst]
        rfl
      have hsf : l1 <:+ l := by
        rw [matchScheme] at hms
        cases h1 : stripLitCI "https://".data l with
        | some r1 =>
          rw [h1] at hms
          cases hms
          exact stripLitCI_sfx _ _ _ h1
        | none =>
          rw [h1] at hms
          exact stripLitCI_sfx _ _ _ hms
      exact hasSubstr_of_sfx hostLit l l1 hsf hsw

theorem searchFrom_substr : ∀ (l : List Char) (r : String × String),
    searchFrom l = some r → hasSubstrCI hostLit l = true
  | [], r, h => by cases h
  | c :: t, r, h => by
    rw [searchFrom] at h
    cases hmf : matchFrom (c :: t) with
    | some x => exact matchFrom_substr _ x hmf
    | none =>
      rw [hmf] at h
      rw [hasSubstrCI, Bool.or_eq_true]
      right
      exact searchFrom_substr t r h

theorem jsTrimL_inside (l : List Char) : jsTrimL l <:+: l := by
  rw [jsTrimL_as_rdrop]
  have h1 : List.rdropWhile isJsWS (l.dropWhile isJsWS) <+: l.dropWhile isJsWS :=
    List.rdropWhile_prefix _ _
  have h2 : l.dropWhile isJsWS <:+ l := List.dropWhile_suffix _
  exact h1.isInfix.trans h2.isInfix

theorem parseUrl_no_host (s : String)
    (h : hasSubstrCI hostLit s.data = false) : parseUrl s = none := by
  rw [parseUrl]
  cases hsf : searchFrom (jsTrimL s.data) with
  | none => rfl
  | some r =>
    exfalso
    have h1 := searchFrom_substr _ r hsf
    have h2 := hasSubstr_mono_within hostLit _ _ (jsTrimL_inside s.data) h1
    rw [h] at h2
    cases h2

end AmazonMusic

namespace AmazonMusic

/-- C1 (amended): parseUrl recognizes the canonical URLs, but the pattern
is anchored only at the end of the (trimmed) input, and a fragment is only
accepted after a slug or query.  Concretely: (1) every string of the form
[junk]http(s)://music.amazon.[host]/[kind]/[id][tail] parses to that kind
and id, where the junk prefix contains no letter h and no whitespace, the
host part is nonempty without slashes, the kind segment is one of the five
literals, the id is one or more alphanumeric characters, and the tail is
anything the pattern part `(?:\/[^/?#]+)?(?:[/?].*)?$` accepts (nothing, a
query, a slug, a slug followed by more path/query — but not a bare
fragment) that does not end in whitespace; (2) every string with no
case-insensitive occurrence of "music.amazon." yields null (covering
wrong hosts, the empty string, and arbitrary junk); and (3) an
unrecognized kind segment, a missing id, and malformed id characters
yield null. -/
theorem parseUrl_characterization :
    (∀ pre scheme host kindS idS tailS : String,
      pre.data.all (fun c => decide (¬c.toLower = 'h') && !isJsWS c) = true →
      scheme = "https" ∨ scheme = "http" →
      host.data ≠ [] → host.data.all (fun c => decide (c ≠ '/')) = true →
      kindS ∈ urlKinds →
      idS.data ≠ [] → idS.data.all Char.isAlphanum = true →
      tailOk tailS.data = true →
      (∀ c, tailS.data.getLast? = some c → isJsWS c = false) →
      parseUrl (pre ++ scheme ++ "://music.amazon." ++ host ++ "/" ++ kindS ++
        "/" ++ idS ++ tailS) = some ⟨kindS, idS⟩) ∧
    (∀ s : String, hasSubstrCI hostLit s.data = false → parseUrl s = none) ∧
    parseUrl "" = none ∧
    parseUrl "https://music.amazon.com/unknown/B079TPJ3G4" = none ∧
    parseUrl "https://music.amazon.com/tracks/" = none ∧
    parseUrl "https://music.amazon.com/tracks/ab_c" = none := by
  refine ⟨?_, parseUrl_no_host, rfl, rfl, rfl, rfl⟩
  intro pre scheme host kindS idS tailS h1 h2 h3 h4 h5 h6 h7 h8 h9
  exact parseUrl_canonical pre scheme host kindS idS tailS h1 h2 h3 h4 h5 h6 h7 h8 h9

/-- C1 counterexample: the claim as stated is false on both sides.  The
regex is not anchored at the start, so a string with extra characters
before the scheme still parses; and a canonical URL with a fragment
directly after the id (no slug, no query) is rejected, because the tail
part `(?:[/?].*)?$` does not accept a leading `#`. -/
theorem parseUrl_claim_counterexample :
    parseUrl "xhttps://music.amazon.com/tracks/abc" = some ⟨"tracks", "abc"⟩ ∧
    parseUrl "https://music.amazon.com/tracks/abc#f" = none := ⟨rfl, rfl⟩

theorem parseUrl_characterization_witness :
    parseUrl "https://music.amazon.com/tracks/B079TPJ3G4?ref=x" =
      some ⟨"tracks", "B079TPJ3G4"⟩ ∧
    parseUrl "hello world" = none := by
  constructor
  · have h1 := parseUrl_characterization.1 "" "https" "com" "tracks" "B079TPJ3G4"
      "?ref=x" (by decide) (Or.inl rfl) (by decide) (by decide) (by decide)
      (by decide) (by decide) (by decide) (by intro c hc; cases hc; decide)
    rw [show ("" ++ "https" ++ "://music.amazon." ++ "com" ++ "/" ++ "tracks" ++
      "/" ++ "B079TPJ3G4" ++ "?ref=x" : String) =
      "https://music.amazon.com/tracks/B079TPJ3G4?ref=x" from rfl] at h1
    exact h1
  · exact parseUrl_characterization.2.1 "hello world" (by decide)

end AmazonMusic
